import Mathlib

/-! Verification of the `data_autopsy` anomaly-detection core

Shallow embedding of `src/autopsy/pass1.py` (Pass-1 anomaly detection) and
`src/autopsy/store.py` (measurement registry and overview cache), together
with proofs of the specification claims about them.

Modelling conventions:
* Python floats are modelled by `ℚ` (exact arithmetic; the spec states the
  formulas over real numbers).  `NaN` / absent values in pandas columns are
  modelled by `Option ℚ` (`none` = absent), exactly where the source can
  produce them.
* pandas `DataFrame`s are modelled columnar: a `bucket` column (`Int`), a
  time column (`ℚ`), and named aggregate columns (`List (Option ℚ)`).
* Python `sorted` / `list.sort` are stable sorts by a total preorder; any
  stable sort yields the same list, so they are modelled by
  `List.insertionSort` (Mathlib's structurally-recursive stable sort).
* Fallible code returns `Except String`.
* `sha256` digests are modelled by injective serializations: the source's
  operating assumption is that the digest is a deterministic, collision-free
  function of its input, which the serialization realizes exactly.
-/

namespace Autopsy

/-- `col.rsplit("_", 1)` / `col.split("_")[-1]`: split a character list at its
*last* underscore, returning `(part before, part after)`, or `none` when the
list has no underscore. -/
def splitLastAux : List Char → Option (List Char × List Char)
  | [] => none
  | c :: rest =>
    match splitLastAux rest with
    | some (a, b) => some (c :: a, b)
    | none => if c = '_' then some ([], rest) else none

/-- Split a string at its last underscore (`none` when it has no underscore).
The first component is `col.rsplit("_", 1)[0]`, the second is
`col.split("_")[-1]` from `pass1.py`. -/
def splitLastUnderscore (s : String) : Option (String × String) :=
  (splitLastAux s.data).map (fun p => (⟨p.1⟩, ⟨p.2⟩))

/-- `pass1.py` lines 94-101: when `signals` is unspecified, infer it as
`sorted({col.rsplit("_",1)[0] for col in columns if "_" in col and
col.split("_")[-1] in agg})`.  The Python `set` is modelled by `dedup`, and
`sorted` by the stable `insertionSort` (the result is the same sorted
duplicate-free list either way). -/
def inferSignals (columns : List String) (agg : List String) : List String :=
  ((columns.filterMap (fun col =>
      (splitLastUnderscore col).bind
        (fun pr => if pr.2 ∈ agg then some pr.1 else none))).dedup).insertionSort
    (· ≤ ·)

/-- A maximal run of `True` values, as recorded by `_flatline_mask`
(`{"start": …, "end": …, "length": …}`); `end` is a Lean keyword, so the
field is called `stop`. -/
structure Run where
  start : ℕ
  stop : ℕ
  length : ℕ
deriving DecidableEq, Repr

/-- The run-length-encoding loop shared by `_flatline_mask` (lines 44-58 of
`pass1.py`) and the window-extraction loop (lines 197-205): scan the mask,
opening a run at each `False→True` edge and closing it at each `True→False`
edge or at the end of the list.  `idx` is the index of the head of the
remaining list; `st = some (s, len)` means a run started at `s` and has
covered `len` elements so far. -/
def runsAux : ℕ → Option (ℕ × ℕ) → List Bool → List Run
  | idx, st, [] =>
    match st with
    | some (s, len) => [⟨s, idx - 1, len⟩]
    | none => []
  | idx, st, b :: rest =>
    if b then
      match st with
      | none => runsAux (idx + 1) (some (idx, 1)) rest
      | some (s, len) => runsAux (idx + 1) (some (s, len + 1)) rest
    else
      match st with
      | some (s, len) => ⟨s, idx - 1, len⟩ :: runsAux (idx + 1) none rest
      | none => runsAux (idx + 1) none rest

/-- Maximal contiguous runs of `true` in a boolean mask. -/
def computeRuns (mask : List Bool) : List Run :=
  runsAux 0 none mask

/-- Setting `run_mask[idx] = True` for `idx in range(run["start"], run["end"]+1)`
when the run qualifies (`_flatline_mask` lines 60-63), expressed as a map over
the indexed mask. -/
def applyRun (minRun : ℕ) (mask : List Bool) (r : Run) : List Bool :=
  if minRun ≤ r.length then
    mask.enum.map (fun p => if r.start ≤ p.1 ∧ p.1 ≤ r.stop then true else p.2)
  else mask

/-- `_flatline_mask` (`pass1.py` lines 37-64): flag every index belonging to a
maximal run of candidates whose length is at least `min_run`. -/
def flatline_mask (spread : List Bool) (min_run : ℕ) : List Bool :=
  (computeRuns spread).foldl (applyRun min_run) (List.replicate spread.length false)

/-- `(overview[max_col] - overview[min_col]) <= flatline_eps` with
`fillna(False)` (`pass1.py` line 144): a bucket is a flatline candidate iff
both aggregates are present and their spread is at most `eps`; pandas yields
`False` whenever either operand is absent. -/
def spreadCandidates (maxs mins : List (Option ℚ)) (eps : ℚ) : List Bool :=
  List.zipWith (fun mx mn =>
    match mx, mn with
    | some a, some b => decide (a - b ≤ eps)
    | _, _ => false) maxs mins

/-- `np.median` on a NaN-free series: middle element of the sorted list (odd
length), or the mean of the two middle elements (even length). -/
def listMedian (l : List ℚ) : ℚ :=
  if l.length % 2 = 1 then (l.insertionSort (· ≤ ·)).getD (l.length / 2) 0
  else ((l.insertionSort (· ≤ ·)).getD (l.length / 2 - 1) 0
    + (l.insertionSort (· ≤ ·)).getD (l.length / 2) 0) / 2

/-- The median absolute deviation used by `_mad_z`. -/
def listMad (l : List ℚ) : ℚ :=
  listMedian (l.map (fun x => |x - listMedian l|))

/-- `_mad_z` (`pass1.py` lines 67-77): robust z-scores
`0.6745 * (x - median) / mad`, all zero when the MAD is zero.  (The source
also guards `not np.isfinite(mad)`; over `ℚ` every value is finite, so that
disjunct is vacuous.) -/
def _mad_z (values : List ℚ) : List ℚ :=
  if values = [] then []
  else if listMad values = 0 then values.map (fun _ => 0)
  else values.map (fun x =>
    (6745 / 10000 : ℚ) * (x - listMedian values) / listMad values)

/-- `mean_values.diff().fillna(0.0)` (`pass1.py` lines 164-165), tail part:
difference with the previous element, `0` when either is absent. -/
def diffFillGo : Option ℚ → List (Option ℚ) → List ℚ
  | _, [] => []
  | prev, cur :: rest =>
    (match prev, cur with
     | some a, some b => b - a
     | _, _ => 0) :: diffFillGo cur rest

/-- `mean_values.diff().fillna(0.0)`: the first element's missing predecessor
gives difference `0`. -/
def diffFill : List (Option ℚ) → List ℚ
  | [] => []
  | x :: rest => 0 :: diffFillGo x rest

/-- `missing_mask.mean()` (`pass1.py` line 140): fraction of buckets whose
mean aggregate is absent.  (On an empty table pandas yields `NaN`, which
compares `False` against any threshold; here `0/0 = 0` — the difference is
unobservable through any per-bucket flag since there are no buckets.) -/
def missingRate (means : List (Option ℚ)) : ℚ :=
  ((means.countP (fun m => m.isNone)) : ℚ) / (means.length : ℚ)

/-- `missing_mask & (missing_rate >= missing_threshold)` (`pass1.py` line
142): per-bucket missing flag, gated by the global rate threshold. -/
def missingFlagMask (means : List (Option ℚ)) (threshold : ℚ) : List Bool :=
  means.map (fun m => m.isNone && decide (threshold ≤ missingRate means))

/-- The run-count / max-run-length loop over the flatline mask
(`pass1.py` lines 149-162), as a fold carrying `(runs, max_run, current_run)`. -/
def runStats (mask : List Bool) : ℕ × ℕ :=
  let acc := mask.foldl (fun (a : ℕ × ℕ × ℕ) v =>
    if v then (a.1, a.2.1, a.2.2 + 1)
    else if 0 < a.2.2 then (a.1 + 1, max a.2.1 a.2.2, 0)
    else (a.1, a.2.1, 0)) (0, 0, 0)
  if 0 < acc.2.2 then (acc.1 + 1, max acc.2.1 acc.2.2) else (acc.1, acc.2.1)

/-- `float(np.nanmax(spike_z_abs)) if spike_z_abs.size else 0.0`
(`pass1.py` line 168); the input values are NaN-free absolute values. -/
def nanmaxD : List ℚ → ℚ
  | [] => 0
  | x :: rest => rest.foldl max x

/-- `zip(missing, flatline, spike)` + triple `or` (`pass1.py` lines 170-175);
Python's `zip` truncates to the shortest list. -/
def zip3Or : List Bool → List Bool → List Bool → List Bool
  | a :: as', b :: bs, c :: cs => (a || b || c) :: zip3Or as' bs cs
  | _, _, _ => []

/-- Elementwise `or` of two flag vectors (`pass1.py` line 194). -/
def zipOr (u f : List Bool) : List Bool :=
  List.zipWith (fun a b => a || b) u f

/-- The overview `DataFrame` consumed by `build_pass1_from_overview`,
modelled columnar: the `bucket` column, the time column (named
`timeColName`; time values modelled as numeric seconds — the datetime
branch of the source converts datetimes to exactly such seconds), and the
per-signal aggregate columns. -/
structure Overview where
  timeColName : String
  buckets : List Int
  times : List ℚ
  sigCols : List (String × List (Option ℚ))
deriving DecidableEq, Repr

/-- `overview_df.columns`. -/
def Overview.columns (o : Overview) : List String :=
  o.timeColName :: "bucket" :: o.sigCols.map (fun c => c.1)

/-- `overview[name]` for a column of data values (`bucket` and the time
column cast to numeric when accessed this way, as pandas would). -/
def Overview.getCol (o : Overview) (name : String) : List (Option ℚ) :=
  if name = o.timeColName then o.times.map some
  else if name = "bucket" then o.buckets.map (fun b => some (Int.cast b : ℚ))
  else
    match o.sigCols.find? (fun c => c.1 = name) with
    | some c => c.2
    | none => []

/-- The pandas invariant that every column has the table's row count, as a
decidable check. -/
def Overview.wf (o : Overview) : Bool :=
  o.times.length == o.buckets.length &&
    o.sigCols.all (fun c => c.2.length == o.buckets.length)

/-- `overview_df.sort_values("bucket").reset_index(drop=True)` (`pass1.py`
line 104): reorder all rows by ascending bucket.  The sorted row order is
obtained by sorting `(position, bucket)` pairs by bucket and reading the
columns through the resulting positions. -/
def Overview.sortByBucket (o : Overview) : Overview :=
  let idx := (((List.range o.buckets.length).zip o.buckets).insertionSort
      (fun a b => a.2 ≤ b.2)).map (fun p => p.1)
  { timeColName := o.timeColName
    buckets := idx.map (fun i => o.buckets.getD i 0)
    times := idx.map (fun i => o.times.getD i 0)
    sigCols := o.sigCols.map (fun c => (c.1, idx.map (fun i => c.2.getD i none))) }

/-- `timestamp_checks` (`pass1.py` lines 112-123). -/
structure TimestampChecks where
  monotonic : Bool
  gap_count : ℕ
  gap_indices : List ℕ
  expected_gap_seconds : ℚ
deriving DecidableEq, Repr

/-- `seconds.diff()`: `none` at position 0 (missing predecessor), tail part. -/
def seriesDiffGo : ℚ → List ℚ → List (Option ℚ)
  | _, [] => []
  | prev, cur :: rest => some (cur - prev) :: seriesDiffGo cur rest

/-- `seconds.diff()` over the (numeric) time column. -/
def seriesDiff : List ℚ → List (Option ℚ)
  | [] => []
  | x :: rest => none :: seriesDiffGo x rest

/-- `pass1.py` lines 112-123: monotonicity of the time column (the leading
`NaN` difference replaced by the expected gap) and gaps exceeding
`1.5 × (1/hz)`. -/
def timestampChecks (times : List ℚ) (hz : ℚ) : TimestampChecks :=
  let expected := 1 / hz
  let diffs := seriesDiff times
  let gap_indices := ((diffs.enum.filter (fun p =>
      match p.2 with
      | some v => decide (expected * 3 / 2 < v)
      | none => false)).map (fun p => p.1))
  { monotonic := (diffs.drop 1).all (fun d => decide (0 ≤ d.getD expected))
    gap_count := gap_indices.length
    gap_indices := gap_indices
    expected_gap_seconds := expected }

/-- The overview configuration dict as read by `build_pass1_from_overview`
(`overview_cfg.get(…)` with the source's defaults). -/
structure OverviewCfg where
  time_col : String := "timestamp"
  signals : Option (List String) := none
  agg : List String := ["min", "mean", "max"]
  hz : ℚ := 1
deriving DecidableEq, Repr

/-- The Pass-1 configuration dict (`pass1_cfg[…]`).  `top_k_windows` /
`top_n_signals` appear in the spec's data model but are not read by
`build_pass1_from_overview`. -/
structure Pass1Config where
  missing_rate : ℚ
  flatline_eps : ℚ
  flatline_min_run : ℕ
  spike_mad_z : ℚ
  top_k_windows : ℕ := 0
  top_n_signals : ℕ := 0
deriving DecidableEq, Repr

/-- The `per_signal[signal]` record (`pass1.py` lines 177-189). -/
structure PerSignalStats where
  missing_rate : ℚ
  missing_rate_flagged : Bool
  flatline_run_count : ℕ
  flatline_max_run : ℕ
  spike_mad_z_max : ℚ
  flagged_bucket_count : ℕ
  flagged_buckets : List Int
deriving DecidableEq, Repr, Inhabited

/-- One entry of a window's ranked `signals` list (`pass1.py` lines 224-231). -/
structure SignalScore where
  signal : String
  flagged_bucket_count : ℕ
  spike_mad_z_max : ℚ
  score : ℚ
deriving DecidableEq, Repr

/-- One merged anomaly window (`pass1.py` lines 233-243). -/
structure AnomalyWindow where
  start_bucket : Int
  end_bucket : Int
  start_time : ℚ
  end_time : ℚ
  duration_buckets : Int
  score : ℚ
  signals : List SignalScore
deriving DecidableEq, Repr

/-- `AutopsyResultPass1` (`pass1.py` lines 9-19).  The Python dicts
`per_signal` keep one entry per distinct signal name in insertion order;
they are modelled as association lists in configured-signal order (duplicate
configured names yield duplicate entries carrying identical values, so every
lookup agrees with the dict). -/
structure AutopsyResultPass1 where
  measurement_id : String
  overview_cfg : OverviewCfg
  pass1_cfg : Pass1Config
  key : String
  created_at_unix : ℚ
  per_signal : List (String × PerSignalStats)
  timestamp_checks : TimestampChecks
  windows : List AnomalyWindow
  cache_hit : Bool
deriving DecidableEq, Repr

/-- Association-list lookup (Python dict subscripting by key). -/
def alookup {α : Type} (l : List (String × α)) (k : String) : Option α :=
  (l.find? (fun p => p.1 = k)).map (fun p => p.2)

/-- The per-signal detection loop body (`pass1.py` lines 129-190): required
column checks, missing-rate / flatline / spike masks, their `or`, and the
reported statistics.  Returns the stats together with the signal's flag
vector (`flagged_by_signal[signal]`). -/
def computeSignalStats (o : Overview) (p : Pass1Config) (signal : String) :
    Except String (PerSignalStats × List Bool) :=
  let mean_col := signal ++ "_mean"
  let min_col := signal ++ "_min"
  let max_col := signal ++ "_max"
  if mean_col ∉ o.columns then
    .error ("Missing " ++ mean_col ++ " in overview for " ++ signal)
  else if min_col ∉ o.columns ∨ max_col ∉ o.columns then
    .error ("Missing " ++ min_col ++ "/" ++ max_col ++ " in overview for " ++ signal)
  else
    let mean_values := o.getCol mean_col
    let missing_rate := missingRate mean_values
    let missing_flag_mask := missingFlagMask mean_values p.missing_rate
    let spread := spreadCandidates (o.getCol max_col) (o.getCol min_col) p.flatline_eps
    let flatline := flatline_mask spread p.flatline_min_run
    let frs := runStats flatline
    let spike_z_abs := (_mad_z (diffFill mean_values)).map (fun z => |z|)
    let spike_mask := spike_z_abs.map (fun z => decide (p.spike_mad_z ≤ z))
    let spike_max := nanmaxD spike_z_abs
    let flagged := zip3Or missing_flag_mask flatline spike_mask
    .ok ({ missing_rate := missing_rate
           missing_rate_flagged := decide (p.missing_rate ≤ missing_rate)
           flatline_run_count := frs.1
           flatline_max_run := frs.2
           spike_mad_z_max := spike_max
           flagged_bucket_count := flagged.count true
           flagged_buckets := (o.buckets.zip flagged).filterMap
             (fun bf => if bf.2 then some bf.1 else none) },
         flagged)

/-- Ranking of signals within a window: `sort(key=(-score, signal))`
(`pass1.py` line 232). -/
def sigRel (a b : SignalScore) : Prop :=
  b.score < a.score ∨ (a.score = b.score ∧ a.signal ≤ b.signal)

instance : DecidableRel sigRel := fun a b => by
  unfold sigRel; infer_instance

/-- Ranking of windows: `sort(key=(-score, start_bucket))` (`pass1.py`
line 245). -/
def winRel (a b : AnomalyWindow) : Prop :=
  b.score < a.score ∨ (a.score = b.score ∧ a.start_bucket ≤ b.start_bucket)

instance : DecidableRel winRel := fun a b => by
  unfold winRel; infer_instance

instance : IsTrans SignalScore sigRel :=
  ⟨fun a b c hab hbc => by
    rcases hab with h1 | ⟨h1, h2⟩ <;> rcases hbc with h3 | ⟨h3, h4⟩
    · exact Or.inl (h3.trans h1)
    · exact Or.inl (by rw [← h3]; exact h1)
    · exact Or.inl (by rw [h1]; exact h3)
    · exact Or.inr ⟨h1.trans h3, h2.trans h4⟩⟩

instance : IsTotal SignalScore sigRel :=
  ⟨fun a b => by
    rcases lt_trichotomy a.score b.score with h | h | h
    · exact Or.inr (Or.inl h)
    · rcases le_total a.signal b.signal with hs | hs
      · exact Or.inl (Or.inr ⟨h, hs⟩)
      · exact Or.inr (Or.inr ⟨h.symm, hs⟩)
    · exact Or.inl (Or.inl h)⟩

instance : IsTrans AnomalyWindow winRel :=
  ⟨fun a b c hab hbc => by
    rcases hab with h1 | ⟨h1, h2⟩ <;> rcases hbc with h3 | ⟨h3, h4⟩
    · exact Or.inl (h3.trans h1)
    · exact Or.inl (by rw [← h3]; exact h1)
    · exact Or.inl (by rw [h1]; exact h3)
    · exact Or.inr ⟨h1.trans h3, h2.trans h4⟩⟩

instance : IsTotal AnomalyWindow winRel :=
  ⟨fun a b => by
    rcases lt_trichotomy a.score b.score with h | h | h
    · exact Or.inr (Or.inl h)
    · rcases le_total a.start_bucket b.start_bucket with hs | hs
      · exact Or.inl (Or.inr ⟨h, hs⟩)
      · exact Or.inr (Or.inr ⟨h.symm, hs⟩)
    · exact Or.inl (Or.inl h)⟩

/-- The per-window scoring loop (`pass1.py` lines 207-243) for one window
`w` (positional start/stop indices into the sorted overview). -/
def mkWindow (o : Overview) (signals : List String)
    (per_signal : List (String × PerSignalStats))
    (flagged_by_signal : List (String × List Bool)) (w : Run) : AnomalyWindow :=
  let start_bucket := o.buckets.getD w.start 0
  let end_bucket := o.buckets.getD w.stop 0
  let entries := signals.map (fun signal =>
    let flags := ((alookup flagged_by_signal signal).getD []).drop w.start
      |>.take (w.stop + 1 - w.start)
    let flagged_count := flags.count true
    let spike_max := ((alookup per_signal signal).getD default).spike_mad_z_max
    ({ signal := signal
       flagged_bucket_count := flagged_count
       spike_mad_z_max := spike_max
       score := (flagged_count : ℚ) + spike_max } : SignalScore))
  { start_bucket := start_bucket
    end_bucket := end_bucket
    start_time := o.times.getD w.start 0
    end_time := o.times.getD w.stop 0
    duration_buckets := end_bucket - start_bucket + 1
    score := (entries.map (fun e => e.score)).sum
    signals := entries.insertionSort sigRel }

/-- `pass1.py` lines 92-101: the configured signal list, or the inferred one
when `signals` is unspecified. -/
def effectiveSignals (overview_df : Overview) (overview_cfg : OverviewCfg) :
    List String :=
  match overview_cfg.signals with
  | some s => s
  | none => inferSignals overview_df.columns overview_cfg.agg

/-- `build_pass1_from_overview` (`pass1.py` lines 80-257).  `now` models
`time.time()`.  The time column is read through its name; the source raises
`KeyError` when the overview lacks the configured time column. -/
def build_pass1_from_overview (overview_df : Overview) (measurement_id : String)
    (overview_cfg : OverviewCfg) (pass1_cfg : Pass1Config) (key : String)
    (cache_hit : Bool) (now : ℚ) : Except String AutopsyResultPass1 :=
  let time_col := overview_cfg.time_col
  let signals := effectiveSignals overview_df overview_cfg
  let o := overview_df.sortByBucket
  if time_col ≠ o.timeColName then
    .error ("KeyError: " ++ time_col)
  else
    match signals.mapM (fun s =>
        (computeSignalStats o pass1_cfg s).map (fun r => (s, r))) with
    | .error e => .error e
    | .ok results =>
      let per_signal := results.map (fun r => (r.1, r.2.1))
      let flagged_by_signal := results.map (fun r => (r.1, r.2.2))
      let union_flags := flagged_by_signal.foldl (fun u f => zipOr u f.2)
        (List.replicate o.buckets.length false)
      let window_results := (computeRuns union_flags).map
        (mkWindow o signals per_signal flagged_by_signal)
      .ok { measurement_id := measurement_id
            overview_cfg := overview_cfg
            pass1_cfg := pass1_cfg
            key := key
            created_at_unix := now
            per_signal := per_signal
            timestamp_checks := timestampChecks o.times overview_cfg.hz
            windows := window_results.insertionSort winRel
            cache_hit := cache_hit }

/-- A file on the external filesystem: its byte content and (integral)
modification time, the inputs of `sha256_file_signature`. -/
structure FSFile where
  content : List ℕ
  mtime : ℕ
deriving DecidableEq, Repr

/-- `sha256_file_signature` (`store.py` lines 11-30): digest of
`(file size, int(mtime), first head_bytes bytes)`.  The sha256 hex digest is
modelled by an injective serialization of exactly those inputs. -/
def sha256_file_signature (f : FSFile) (head_bytes : ℕ := 2000000) : String :=
  "h" ++ toString f.content.length ++ "_" ++ toString f.mtime ++ "_"
    ++ toString (f.content.take head_bytes)

/-- `MeasurementRef` (`store.py` lines 39-44). -/
structure MeasurementRef where
  id : String
  path : String
  label : Option String := none
deriving DecidableEq, Repr

/-- The metadata JSON written by `MeasurementStore.add` for a registered
measurement.  The `format`/`note` fields come from `_extract_metadata`; its
mf4 branch (best-effort channel extraction via the optional `asammdf`
dependency) is environment-dependent and not exercised by any claim, so the
generic branch's shape is used for every format. -/
structure MeasurementMeta where
  format : String
  note : String
  measurement_id : String
  file_fingerprint : String
  path : String
  label : Option String
  created_at_unix : ℕ
deriving DecidableEq, Repr

/-- `Path.suffix` of the final path component: `"." ++` the part after the
last dot of the last component, `""` when it has none. -/
def splitLastCharAux (sep : Char) : List Char → Option (List Char × List Char)
  | [] => none
  | c :: rest =>
    match splitLastCharAux sep rest with
    | some (a, b) => some (c :: a, b)
    | none => if c = sep then some ([], rest) else none

/-- `Path(path).suffix`. -/
def pathSuffix (path : String) : String :=
  let last := match splitLastCharAux '/' path.data with
    | some (_, b) => b
    | none => path.data
  match splitLastCharAux '.' last with
  | some (_, b) => "." ++ (⟨b⟩ : String)
  | none => ""

/-- `_extract_metadata` (`store.py` lines 121-153), generic branch:
`{"format": suf.lstrip("."), "note": "minimal metadata in v0"}`. -/
def extractMetadata (path : String) : String × String :=
  ((pathSuffix path).toLower.drop 1, "minimal metadata in v0")

/-- `stable_json_hash` (`store.py` lines 33-36) applied to the overview
config dict (`store.py` lines 180-186): deterministic digest of the
JSON-serialized config with sorted keys (`agg, hz, measurement_id, signals,
time_col`).  The sha256 digest (and its 16-character truncation in
`config_key`) is modelled by the canonical serialization itself: the
source's operating assumption is that the digest is a collision-free pure
function of the canonical JSON, which the serialization realizes exactly. -/
structure OverviewConfigFull where
  measurement_id : String
  signals : Option (List String)
  hz : ℚ
  agg : List String
  time_col : String
deriving DecidableEq, Repr

/-- JSON array of strings (canonical form used by `stable_json_hash`). -/
def jsonStrList (l : List String) : String :=
  "[" ++ String.intercalate "," (l.map (fun s => "\"" ++ s ++ "\"")) ++ "]"

/-- `MeasurementStore.config_key` (`store.py` lines 117-119) for an overview
config: the canonical sorted-key JSON serialization standing in for its
sha256 digest. -/
def config_key (c : OverviewConfigFull) : String :=
  "\x7b\"agg\":" ++ jsonStrList c.agg
    ++ ",\"hz\":" ++ toString c.hz
    ++ ",\"measurement_id\":\"" ++ c.measurement_id
    ++ "\",\"signals\":" ++ (match c.signals with
      | none => "null"
      | some l => jsonStrList l)
    ++ ",\"time_col\":\"" ++ c.time_col ++ "\"\x7d"

/-- `MeasurementStore.cache_path` (`store.py` lines 106-115): the
deterministic artifact path `artifacts/<measurement_id>/<kind>/<key><suffix>`
under the store root. -/
def cache_path (measurement_id kind key sfx : String) : String :=
  "artifacts/" ++ measurement_id ++ "/" ++ kind ++ "/" ++ key ++ sfx

/-- The persistent state of a `MeasurementStore`: the external filesystem
(path ↦ file), the metadata directory (measurement id ↦ metadata JSON), the
artifacts directory (artifact path ↦ modification time), and the clock read
by `time.time()`. -/
structure StoreState where
  fs : List (String × FSFile)
  metaFiles : List (String × MeasurementMeta)
  artifacts : List (String × ℕ)
  now : ℕ
deriving DecidableEq, Repr

/-- Write-or-overwrite an entry of an association list (a file write into
`meta_dir` / `art_dir`). -/
def aset {α : Type} (l : List (String × α)) (k : String) (v : α) :
    List (String × α) :=
  if (l.find? (fun p => p.1 = k)).isSome then
    l.map (fun p => if p.1 = k then (k, v) else p)
  else l ++ [(k, v)]

/-- `MeasurementStore.add` (`store.py` lines 69-98): fingerprint the file,
derive the measurement id, create the metadata only when absent, then update
the label non-destructively when one is supplied and differs. -/
def MeasurementStore.add (st : StoreState) (path : String)
    (label : Option String := none) : Except String (MeasurementRef × StoreState) :=
  match alookup st.fs path with
  | none => .error ("FileNotFoundError: " ++ path)
  | some f =>
    let fid := sha256_file_signature f
    let mid := "m_" ++ fid.take 12
    let st1 :=
      if (alookup st.metaFiles mid).isSome then st
      else
        let base := extractMetadata path
        let m : MeasurementMeta :=
          { format := base.1, note := base.2, measurement_id := mid,
            file_fingerprint := fid, path := path, label := label,
            created_at_unix := st.now }
        { st with metaFiles := aset st.metaFiles mid m }
    let st2 :=
      match label with
      | none => st1
      | some _ =>
        match alookup st1.metaFiles mid with
        | some m =>
          if m.label ≠ label then
            { st1 with metaFiles := aset st1.metaFiles mid { m with label := label } }
          else st1
        | none => st1
    .ok ({ id := mid, path := path, label := label }, st2)

/-- The dict returned by `MeasurementStore.build_overview` (`store.py`
lines 190 and 235). -/
structure OverviewBuildResult where
  path : String
  cache_hit : Bool
  config : OverviewConfigFull
  key : String
deriving DecidableEq, Repr

/-- `MeasurementStore.build_overview` (`store.py` lines 155-235): validate
`hz`, look up the measurement, reject non-CSV inputs, derive the config key
and artifact path, and either serve the existing artifact (`cache_hit=True`,
no write) or build and persist it (`cache_hit=False`).  The pandas
bucketing/aggregation that fills the parquet file is not observable through
the cache interface; the write is modelled as recording the artifact path
with the current clock as its modification time. -/
def MeasurementStore.build_overview (st : StoreState) (measurement_id : String)
    (signals : Option (List String) := none) (hz : ℚ := 1)
    (agg : List String := ["min", "mean", "max"])
    (time_col : String := "timestamp") :
    Except String (OverviewBuildResult × StoreState) :=
  if hz ≤ 0 then .error "hz must be positive"
  else
    match alookup st.metaFiles measurement_id with
    | none => .error ("Unknown measurement_id: " ++ measurement_id)
    | some meta =>
      if (pathSuffix meta.path).toLower ≠ ".csv" then
        .error "overview cache only supports CSV inputs in v0"
      else
        let config : OverviewConfigFull :=
          { measurement_id := measurement_id, signals := signals, hz := hz,
            agg := agg, time_col := time_col }
        let key := config_key config
        let out_path := cache_path measurement_id "overview" key ".parquet"
        if (alookup st.artifacts out_path).isSome then
          .ok ({ path := out_path, cache_hit := true, config := config, key := key }, st)
        else
          .ok ({ path := out_path, cache_hit := false, config := config, key := key },
               { st with artifacts := aset st.artifacts out_path st.now })

/-! Specification-side predicates -/

/-- `s`..`e` is a *maximal* contiguous run of `true` in `cand`: every position
in the range is `true` and the run can be extended in neither direction. -/
def IsMaxRun (cand : List Bool) (s e : ℕ) : Prop :=
  s ≤ e ∧ e < cand.length ∧
  (∀ j, s ≤ j → j ≤ e → cand.getD j false = true) ∧
  (s = 0 ∨ cand.getD (s - 1) false = false) ∧
  (e + 1 = cand.length ∨ cand.getD (e + 1) false = false)

/-- Columns all have the table's row count (automatic for pandas frames, and
for every output of `Overview.sortByBucket`). -/
def Overview.ColsLen (o : Overview) : Prop :=
  o.times.length = o.buckets.length ∧
    ∀ c ∈ o.sigCols, c.2.length = o.buckets.length

/-! Concrete instances used by the witnesses -/

/-- A small well-formed overview: signal `a` spikes at bucket 2, signal `b`
is flat throughout. -/
def exOverview : Overview :=
  { timeColName := "timestamp"
    buckets := [0, 1, 2, 3]
    times := [0, 1, 2, 3]
    sigCols := [("a_min", [some 0, some 0, some 9, some 0]),
                ("a_mean", [some 0, some 0, some 9, some 0]),
                ("a_max", [some 0, some 0, some 9, some 0]),
                ("b_min", [some 5, some 5, some 5, some 5]),
                ("b_mean", [some 5, some 5, some 5, some 5]),
                ("b_max", [some 5, some 5, some 5, some 5])] }

/-- Overview config selecting both signals explicitly. -/
def exCfg : OverviewCfg := { signals := some ["a", "b"] }

/-- Pass-1 config: spikes at `|z| ≥ 1`, flatlines of length ≥ 3 with zero
tolerance, missing-rate threshold 1/2. -/
def exP : Pass1Config :=
  { missing_rate := 1 / 2, flatline_eps := 0, flatline_min_run := 3,
    spike_mad_z := 1 }

/-- An overview whose signal `a` lacks its `a_min`/`a_max` columns. -/
def exOverviewMissing : Overview :=
  { timeColName := "timestamp"
    buckets := [0, 1]
    times := [0, 1]
    sigCols := [("a_mean", [some 0, some 1])] }

/-- A store with one registered CSV measurement and an empty artifact cache,
whose stored metadata carries the label `"old"`. -/
def exMeta : MeasurementMeta :=
  { format := "csv", note := "minimal metadata in v0"
    measurement_id := "m_h2_3_[1, 2]"
    file_fingerprint := "h2_3_[1, 2]", path := "/data/run1.csv",
    label := some "old", created_at_unix := 5 }

/-- The registered file behind `exMeta`. -/
def exFile : FSFile := { content := [1, 2], mtime := 3 }

/-- The store state holding `exFile` / `exMeta`. -/
def exStore : StoreState :=
  { fs := [("/data/run1.csv", exFile)]
    metaFiles := [("m_h2_3_[1, 2]", exMeta)]
    artifacts := []
    now := 7 }

/-! Theorems -/

/-! Association lists -/

theorem alookup_aset {α : Type} (l : List (String × α)) (k : String) (v : α) :
    alookup (aset l k v) k = some v := by
  unfold aset alookup
  by_cases h : (l.find? (fun p => p.1 = k)).isSome
  · rw [if_pos h, List.find?_map]
    have hfind : ((fun q : String × α => decide (q.1 = k)) ∘
        (fun p : String × α => if p.1 = k then (k, v) else p))
        = fun p : String × α => decide (p.1 = k) := by
      funext p
      by_cases hp : p.1 = k <;> simp [hp]
    rw [hfind]
    obtain ⟨q, hq⟩ := Option.isSome_iff_exists.mp h
    rw [hq]
    have hk : q.1 = k := by simpa using List.find?_some hq
    simp [hk]
  · rw [if_neg h, List.find?_append]
    rw [Option.not_isSome_iff_eq_none] at h
    simp [h]

/-! Claim C10: re-registration with no label -/

/-- Claim C10: Re-registering an already-registered file with `label=None`
leaves the store state — its metadata files included — completely unchanged,
yet the returned `MeasurementRef` carries `label := none` (the call's label
argument), regardless of the label stored in the metadata. -/
theorem C10_add_none_label (st : StoreState) (path : String) (f : FSFile)
    (m : MeasurementMeta)
    (hf : alookup st.fs path = some f)
    (hm : alookup st.metaFiles ("m_" ++ (sha256_file_signature f).take 12) = some m) :
    MeasurementStore.add st path none =
      .ok ({ id := "m_" ++ (sha256_file_signature f).take 12,
             path := path, label := none }, st) := by
  unfold MeasurementStore.add
  rw [hf]
  have hsome : (alookup st.metaFiles
      ("m_" ++ (sha256_file_signature f).take 12)).isSome = true := by
    rw [hm]; rfl
  simp [hsome]

/-- Witness for C10: in `exStore` the file is registered with stored label
`some "old"`; re-adding it with no label returns the ref with `label = none`
and the state unchanged. -/
theorem C10_add_none_label_witness :
    MeasurementStore.add exStore "/data/run1.csv" none =
      .ok ({ id := "m_h2_3_[1, 2]", path := "/data/run1.csv", label := none },
           exStore) ∧ exMeta.label = some "old" := by
  refine ⟨?_, rfl⟩
  have h := C10_add_none_label exStore "/data/run1.csv" exFile exMeta
    (by with_unfolding_all rfl) (by with_unfolding_all rfl)
  simpa using h

/-! Claim C5: overview cache behaviour -/

/-- Claim C5: For a registered CSV measurement and any overview configuration:
`cache_hit` is `true` iff an artifact already exists at the path derived from
the configuration's key; when no artifact exists, the first call returns
`cache_hit = false` and persists the artifact (its modification time is the
current clock), and the identical second call returns `cache_hit = true`
with the state — hence the artifact's modification time — unchanged. -/
theorem C5_overview_cache (st : StoreState) (mid : String) (meta : MeasurementMeta)
    (signals : Option (List String)) (hz : ℚ) (agg : List String) (time_col : String)
    (hmeta : alookup st.metaFiles mid = some meta)
    (hcsv : (pathSuffix meta.path).toLower = ".csv")
    (hhz : 0 < hz) :
    (∃ res st', MeasurementStore.build_overview st mid signals hz agg time_col
        = .ok (res, st') ∧
      res.path = cache_path mid "overview"
          (config_key ⟨mid, signals, hz, agg, time_col⟩) ".parquet" ∧
      res.cache_hit = (alookup st.artifacts (cache_path mid "overview"
          (config_key ⟨mid, signals, hz, agg, time_col⟩) ".parquet")).isSome) ∧
    (alookup st.artifacts (cache_path mid "overview"
        (config_key ⟨mid, signals, hz, agg, time_col⟩) ".parquet") = none →
      ∃ st', MeasurementStore.build_overview st mid signals hz agg time_col
          = .ok ({ path := cache_path mid "overview"
                      (config_key ⟨mid, signals, hz, agg, time_col⟩) ".parquet",
                   cache_hit := false,
                   config := ⟨mid, signals, hz, agg, time_col⟩,
                   key := config_key ⟨mid, signals, hz, agg, time_col⟩ }, st') ∧
        alookup st'.artifacts (cache_path mid "overview"
            (config_key ⟨mid, signals, hz, agg, time_col⟩) ".parquet") = some st.now ∧
        st'.now = st.now ∧
        MeasurementStore.build_overview st' mid signals hz agg time_col
          = .ok ({ path := cache_path mid "overview"
                      (config_key ⟨mid, signals, hz, agg, time_col⟩) ".parquet",
                   cache_hit := true,
                   config := ⟨mid, signals, hz, agg, time_col⟩,
                   key := config_key ⟨mid, signals, hz, agg, time_col⟩ }, st')) := by
  have hnle : ¬ hz ≤ 0 := not_le.mpr hhz
  constructor
  · unfold MeasurementStore.build_overview
    rw [if_neg hnle, hmeta]
    simp only [hcsv]
    rw [if_neg (by simp)]
    by_cases hart : (alookup st.artifacts (cache_path mid "overview"
        (config_key ⟨mid, signals, hz, agg, time_col⟩) ".parquet")).isSome
    · rw [if_pos hart]
      exact ⟨_, _, rfl, rfl, by simp [hart]⟩
    · rw [if_neg hart]
      exact ⟨_, _, rfl, rfl, by simp [Bool.eq_false_iff.mpr hart]⟩
  · intro hnone
    refine ⟨{ st with artifacts := aset st.artifacts (cache_path mid "overview"
        (config_key ⟨mid, signals, hz, agg, time_col⟩) ".parquet") st.now }, ?_, ?_, rfl, ?_⟩
    · unfold MeasurementStore.build_overview
      rw [if_neg hnle, hmeta]
      simp only [hcsv]
      rw [if_neg (by simp)]
      rw [if_neg (by rw [hnone]; simp)]
    · exact alookup_aset _ _ _
    · unfold MeasurementStore.build_overview
      rw [if_neg hnle]
      show (match alookup st.metaFiles mid with
        | none => _
        | some meta => _) = _
      rw [hmeta]
      simp only [hcsv]
      rw [if_neg (by simp)]
      rw [if_pos (by rw [alookup_aset]; rfl)]

/-- Witness for C5 at the concrete store `exStore` (registered CSV
measurement, empty artifact cache): the first call misses and persists, the
second call hits with the same state. -/
theorem C5_overview_cache_witness :
    ∃ st', MeasurementStore.build_overview exStore "m_h2_3_[1, 2]" none 1
        ["min", "mean", "max"] "timestamp"
        = .ok ({ path := cache_path "m_h2_3_[1, 2]" "overview"
                    (config_key ⟨"m_h2_3_[1, 2]", none, 1, ["min", "mean", "max"], "timestamp"⟩)
                    ".parquet",
                 cache_hit := false,
                 config := ⟨"m_h2_3_[1, 2]", none, 1, ["min", "mean", "max"], "timestamp"⟩,
                 key := config_key ⟨"m_h2_3_[1, 2]", none, 1, ["min", "mean", "max"], "timestamp"⟩ },
               st') ∧
      MeasurementStore.build_overview st' "m_h2_3_[1, 2]" none 1
        ["min", "mean", "max"] "timestamp"
        = .ok ({ path := cache_path "m_h2_3_[1, 2]" "overview"
                    (config_key ⟨"m_h2_3_[1, 2]", none, 1, ["min", "mean", "max"], "timestamp"⟩)
                    ".parquet",
                 cache_hit := true,
                 config := ⟨"m_h2_3_[1, 2]", none, 1, ["min", "mean", "max"], "timestamp"⟩,
                 key := config_key ⟨"m_h2_3_[1, 2]", none, 1, ["min", "mean", "max"], "timestamp"⟩ },
               st') := by
  obtain ⟨-, h2⟩ := C5_overview_cache exStore "m_h2_3_[1, 2]" exMeta none 1
    ["min", "mean", "max"] "timestamp" (by with_unfolding_all rfl)
    (by with_unfolding_all rfl) (by norm_num)
  obtain ⟨st', hfirst, -, -, hsecond⟩ := h2 (by with_unfolding_all rfl)
  exact ⟨st', hfirst, hsecond⟩

/-! Claim C3: robust z-scores and the zero-MAD guard -/

theorem diffFillGo_replicate (c : ℚ) :
    ∀ m, diffFillGo (some c) (List.replicate m (some c)) = List.replicate m 0
  | 0 => rfl
  | m + 1 => by
    simp only [List.replicate_succ, diffFillGo, sub_self]
    rw [diffFillGo_replicate c m]

theorem diffFill_replicate (n : ℕ) (c : ℚ) :
    diffFill (List.replicate n (some c)) = List.replicate n 0 := by
  cases n with
  | zero => rfl
  | succ m =>
    simp only [List.replicate_succ, diffFill]
    rw [diffFillGo_replicate]

theorem listMedian_eq_zero_of_all_zero (l : List ℚ) (h : ∀ x ∈ l, x = 0) :
    listMedian l = 0 := by
  unfold listMedian
  have hs : ∀ k, (l.insertionSort (· ≤ ·)).getD k 0 = 0 := by
    intro k
    rcases lt_or_ge k (l.insertionSort (· ≤ ·)).length with hk | hk
    · rw [List.getD_eq_getElem _ _ hk]
      exact h _ ((List.mem_insertionSort _).mp (List.getElem_mem hk))
    · rw [List.getD_eq_default _ _ hk]
  by_cases hpar : l.length % 2 = 1
  · rw [if_pos hpar, hs]
  · rw [if_neg hpar, hs, hs]
    norm_num

/-- Claim C3: `_mad_z`: when the MAD of the series is zero (over `ℚ` the
"non-finite" disjunct of the source is vacuous), every z-score is exactly
zero — in particular the constant difference series of a perfectly constant
signal yields no spike flags for any positive threshold; otherwise each
z-score equals `0.6745 * (x − median) / MAD`. -/
theorem C3_mad_z_zero_guard (values : List ℚ) :
    (listMad values = 0 → _mad_z values = List.replicate values.length 0) ∧
    (listMad values ≠ 0 → ∀ i, i < values.length →
      (_mad_z values).getD i 0
        = (6745 / 10000 : ℚ) * (values.getD i 0 - listMedian values) / listMad values) ∧
    (∀ (n : ℕ) (c t : ℚ), 0 < t →
      ((_mad_z (diffFill (List.replicate n (some c)))).map (fun z => |z|)).map
        (fun z => decide (t ≤ z)) = List.replicate n false) := by
  refine ⟨?_, ?_, ?_⟩
  · intro hmad
    by_cases hne : values = []
    · subst hne; rfl
    · unfold _mad_z
      rw [if_neg hne, if_pos hmad]
      simp
  · intro hmad i hi
    have hne : values ≠ [] := by
      intro h
      subst h
      exact hmad (listMedian_eq_zero_of_all_zero _ (by simp))
    unfold _mad_z
    rw [if_neg hne, if_neg hmad]
    have hlen : i < (values.map (fun x =>
        (6745 / 10000 : ℚ) * (x - listMedian values) / listMad values)).length := by
      simpa using hi
    rw [List.getD_eq_getElem _ _ hlen, List.getElem_map, List.getD_eq_getElem _ _ hi]
  · intro n c t ht
    rw [diffFill_replicate]
    cases n with
    | zero => rfl
    | succ m =>
      have hmad : listMad (List.replicate (m + 1) (0 : ℚ)) = 0 := by
        unfold listMad
        apply listMedian_eq_zero_of_all_zero
        intro x hx
        rw [List.mem_map] at hx
        obtain ⟨y, hy, rfl⟩ := hx
        rw [List.eq_of_mem_replicate hy,
          listMedian_eq_zero_of_all_zero _ (fun z hz => List.eq_of_mem_replicate hz)]
        simp
      unfold _mad_z
      rw [if_neg (by simp), if_pos hmad]
      simp [not_le.mpr ht]

/-! Claim C7: the missing-rate gate -/

/-- Claim C7: A bucket is missing-flagged for a signal iff its mean aggregate
is absent *and* the signal's global missing fraction reaches the threshold:
below the threshold no bucket is flagged even where the mean is absent, at
or above it exactly the absent-mean buckets are flagged. -/
theorem C7_missing_rate_gate (means : List (Option ℚ)) (t : ℚ) (i : ℕ)
    (hi : i < means.length) :
    ((missingFlagMask means t).getD i false = true ↔
      (means.getD i none = none ∧ t ≤ missingRate means)) := by
  unfold missingFlagMask
  have hlen : i < (means.map (fun m =>
      m.isNone && decide (t ≤ missingRate means))).length := by
    simpa using hi
  rw [List.getD_eq_getElem _ _ hlen, List.getElem_map,
    List.getD_eq_getElem _ _ hi]
  simp [Option.isNone_iff_eq_none]

/-- Witness for C7 at `means = [none, some 1]`, threshold `1/2`, bucket 0:
the missing fraction is `1/2`, so the absent-mean bucket is flagged. -/
theorem C7_missing_rate_gate_witness :
    (missingFlagMask [none, some 1] (1 / 2)).getD 0 false = true ↔
      (([none, some 1] : List (Option ℚ)).getD 0 none = none ∧
        (1 / 2 : ℚ) ≤ missingRate [none, some 1]) :=
  C7_missing_rate_gate [none, some 1] (1 / 2) 0 (by norm_num)

/-! Claim C6: signal inference (corrected) -/

/-- Claim C6, counterexample: With columns `[timestamp, bucket, a_mean]` and
requested aggregates `[min, mean, max]`, the prefix `a` possesses only the
`mean` aggregate column, yet it *is* inferred as a signal — refuting the
claim that a prefix lacking some requested aggregate column is not
inferred. -/
theorem C6_inference_counterexample :
    "a" ∈ inferSignals ["timestamp", "bucket", "a_mean"] ["min", "mean", "max"] ∧
    ¬ (∀ sfx ∈ (["min", "mean", "max"] : List String),
        ("a" ++ "_" ++ sfx) ∈ (["timestamp", "bucket", "a_mean"] : List String)) := by
  with_unfolding_all decide

/-- Claim C6, amended: When `signals` is unspecified, the inferred signal set
consists of exactly the column-name prefixes that have a corresponding
column for *at least one* requested aggregate suffix (the part after the
column's last underscore). -/
theorem C6_inference_amended (o : Overview) (cfg : OverviewCfg)
    (h : cfg.signals = none) (p : String) :
    p ∈ effectiveSignals o cfg ↔
      ∃ c ∈ o.columns, ∃ sfx,
        splitLastUnderscore c = some (p, sfx) ∧ sfx ∈ cfg.agg := by
  unfold effectiveSignals
  rw [h]
  unfold inferSignals
  rw [List.mem_insertionSort, List.mem_dedup, List.mem_filterMap]
  constructor
  · rintro ⟨c, hc, hmatch⟩
    rw [Option.bind_eq_some] at hmatch
    obtain ⟨pr, hsp, hif⟩ := hmatch
    by_cases hag : pr.2 ∈ cfg.agg
    · rw [if_pos hag] at hif
      obtain rfl : pr.1 = p := by injection hif
      exact ⟨c, hc, pr.2, by rw [hsp], hag⟩
    · rw [if_neg hag] at hif
      cases hif
  · rintro ⟨c, hc, sfx, hsp, hag⟩
    exact ⟨c, hc, by rw [hsp]; simp [hag]⟩

/-- Witness for the amended C6 on the overview with columns
`[timestamp, bucket, a_mean]` and default aggregates. -/
theorem C6_inference_amended_witness :
    "a" ∈ effectiveSignals exOverviewMissing { signals := none } ↔
      ∃ c ∈ exOverviewMissing.columns, ∃ sfx,
        splitLastUnderscore c = some ("a", sfx) ∧
          sfx ∈ OverviewCfg.agg { signals := none } :=
  C6_inference_amended exOverviewMissing { signals := none } rfl "a"

/-! Claim C4: deterministic ranking of windows and signals -/

/-- Claim C4: In every Pass-1 result, windows are ordered by descending total
score with ties broken by ascending start bucket, and each window's signals
are ordered by descending score with ties broken by ascending signal name. -/
theorem C4_deterministic_ordering (o : Overview) (mid : String)
    (cfg : OverviewCfg) (p : Pass1Config) (key : String) (ch : Bool) (now : ℚ)
    (r : AutopsyResultPass1)
    (hok : build_pass1_from_overview o mid cfg p key ch now = .ok r) :
    r.windows.Pairwise winRel ∧ ∀ w ∈ r.windows, w.signals.Pairwise sigRel := by
  simp only [build_pass1_from_overview] at hok
  split at hok
  · cases hok
  · split at hok
    · cases hok
    · obtain rfl : _ = r := by injection hok
      constructor
      · exact List.sorted_insertionSort winRel _
      · intro w hw
        rw [List.mem_insertionSort] at hw
        obtain ⟨run, -, rfl⟩ := List.mem_map.mp hw
        exact List.sorted_insertionSort sigRel _

/-- Witness for C4: the two-signal example overview produces a Pass-1 result
whose single window is sorted, with both orderings decidably checked. -/
theorem C4_deterministic_ordering_witness :
    ∃ r, build_pass1_from_overview exOverview "m_x" exCfg exP "k" false 100
        = .ok r ∧ r.windows.Pairwise winRel ∧
      ∀ w ∈ r.windows, w.signals.Pairwise sigRel := by
  have hok' : (build_pass1_from_overview exOverview "m_x" exCfg exP "k" false
      100).toOption.isSome = true := by
    with_unfolding_all rfl
  match h : build_pass1_from_overview exOverview "m_x" exCfg exP "k" false 100 with
  | .ok r =>
    exact ⟨r, rfl, C4_deterministic_ordering exOverview "m_x" exCfg exP "k" false 100 r h⟩
  | .error e =>
    rw [h] at hok'
    exact Bool.noConfusion hok'

/-! Run-length encoding: soundness, completeness, uniqueness -/

theorem drop_head_getD {cand rest : List Bool} {idx : ℕ} {b : Bool}
    (h : cand.drop idx = b :: rest) : cand.getD idx false = b := by
  have h0 : cand[idx]? = some b := by
    have hd := List.getElem?_drop cand idx 0
    rw [h] at hd
    simpa using hd.symm
  simp [h0]

theorem drop_tail_eq {cand rest : List Bool} {idx : ℕ} {b : Bool}
    (h : cand.drop idx = b :: rest) : cand.drop (idx + 1) = rest := by
  have hd : cand.drop (idx + 1) = (cand.drop idx).drop 1 := by
    rw [List.drop_drop]
  rw [hd, h]
  rfl

theorem drop_cons_lt {cand rest : List Bool} {idx : ℕ} {b : Bool}
    (h : cand.drop idx = b :: rest) : idx < cand.length := by
  by_contra hc
  rw [List.drop_eq_nil_of_le (Nat.le_of_not_lt hc)] at h
  cases h

/-- Invariant carried by the run-length scanning loop. -/
def RunsInv (cand : List Bool) (idx : ℕ) (st : Option (ℕ × ℕ)) : Prop :=
  (∀ s len, st = some (s, len) → s + len = idx ∧ 0 < len ∧
    (∀ j, s ≤ j → j < idx → cand.getD j false = true) ∧
    (s = 0 ∨ cand.getD (s - 1) false = false)) ∧
  (st = none → idx = 0 ∨ cand.getD (idx - 1) false = false)

theorem emitted_run_spec {cand : List Bool} {idx s len : ℕ}
    (hsum : s + len = idx) (hpos : 0 < len)
    (htrue : ∀ j, s ≤ j → j < idx → cand.getD j false = true)
    (hleft : s = 0 ∨ cand.getD (s - 1) false = false)
    (hright : idx = cand.length ∨ cand.getD idx false = false)
    (hidx : idx ≤ cand.length) :
    IsMaxRun cand s (idx - 1) ∧ len = (idx - 1) - s + 1 := by
  refine ⟨⟨by omega, by omega, ?_, hleft, ?_⟩, by omega⟩
  · intro j hj1 hj2
    exact htrue j hj1 (by omega)
  · rcases hright with h | h
    · exact Or.inl (by omega)
    · exact Or.inr (by rwa [show idx - 1 + 1 = idx by omega])

theorem runsAux_sound (cand : List Bool) :
    ∀ (l : List Bool) (idx : ℕ) (st : Option (ℕ × ℕ)),
      cand.drop idx = l → idx ≤ cand.length → RunsInv cand idx st →
      ∀ r ∈ runsAux idx st l,
        IsMaxRun cand r.start r.stop ∧ r.length = r.stop - r.start + 1
  | [], idx, st, hdrop, hidx, hinv, r, hr => by
    have hlen : idx = cand.length := by
      have := List.drop_eq_nil_iff.mp hdrop
      omega
    cases st with
    | none => simp [runsAux] at hr
    | some p =>
      obtain ⟨s, len⟩ := p
      obtain ⟨hsum, hpos, htrue, hleft⟩ := hinv.1 s len rfl
      have hmem : r = (⟨s, idx - 1, len⟩ : Run) := by
        simpa [runsAux] using hr
      subst hmem
      exact emitted_run_spec hsum hpos htrue hleft (Or.inl hlen) hidx
  | b :: rest, idx, st, hdrop, hidx, hinv, r, hr => by
    have hb := drop_head_getD hdrop
    have hrest := drop_tail_eq hdrop
    have hlt := drop_cons_lt hdrop
    cases b with
    | true =>
      cases st with
      | none =>
        refine runsAux_sound cand rest (idx + 1) (some (idx, 1)) hrest (by omega)
          ⟨?_, fun h => nomatch h⟩ r ?_
        · intro s len h
          obtain ⟨rfl, rfl⟩ : idx = s ∧ 1 = len := by simpa using h
          exact ⟨rfl, by omega, fun j hj1 hj2 => by
            have hj : j = idx := by omega
            rw [hj]; exact hb, hinv.2 rfl⟩
        · simpa [runsAux, hb] using hr
      | some p =>
        obtain ⟨s, len⟩ := p
        obtain ⟨hsum, hpos, htrue, hleft⟩ := hinv.1 s len rfl
        refine runsAux_sound cand rest (idx + 1) (some (s, len + 1)) hrest (by omega)
          ⟨?_, fun h => nomatch h⟩ r ?_
        · intro s' len' h
          obtain ⟨rfl, rfl⟩ : s = s' ∧ len + 1 = len' := by simpa using h
          refine ⟨by omega, by omega, ?_, hleft⟩
          intro j hj1 hj2
          rcases Nat.lt_or_ge j idx with hj | hj
          · exact htrue j hj1 hj
          · have hj' : j = idx := by omega
            rw [hj']; exact hb
        · simpa [runsAux, hb] using hr
    | false =>
      cases st with
      | none =>
        refine runsAux_sound cand rest (idx + 1) none hrest (by omega)
          ⟨(fun _ _ h => nomatch h), fun _ => Or.inr (by simpa using hb)⟩ r ?_
        simpa [runsAux, hb] using hr
      | some p =>
        obtain ⟨s, len⟩ := p
        obtain ⟨hsum, hpos, htrue, hleft⟩ := hinv.1 s len rfl
        rw [show runsAux idx (some (s, len)) (false :: rest)
            = ⟨s, idx - 1, len⟩ :: runsAux (idx + 1) none rest from by
          simp [runsAux]] at hr
        rcases List.mem_cons.mp hr with hr | hr
        · subst hr
          exact emitted_run_spec hsum hpos htrue hleft (Or.inr hb) (by omega)
        · exact runsAux_sound cand rest (idx + 1) none hrest (by omega)
            ⟨(fun _ _ h => nomatch h), fun _ => Or.inr (by simpa using hb)⟩ r hr

theorem runsAux_complete (cand : List Bool) :
    ∀ (l : List Bool) (idx : ℕ) (st : Option (ℕ × ℕ)),
      cand.drop idx = l → idx ≤ cand.length → RunsInv cand idx st →
      ∀ i, i < cand.length → cand.getD i false = true →
        (match st with | some (s, _) => s ≤ i | none => idx ≤ i) →
        ∃ r ∈ runsAux idx st l, r.start ≤ i ∧ i ≤ r.stop
  | [], idx, st, hdrop, hidx, hinv, i, hi, hti, hcond => by
    have hlen : idx = cand.length := by
      have := List.drop_eq_nil_iff.mp hdrop
      omega
    cases st with
    | none =>
      have hii : idx ≤ i := hcond
      omega
    | some p =>
      obtain ⟨s, len⟩ := p
      have hsi : s ≤ i := hcond
      refine ⟨⟨s, idx - 1, len⟩, by simp [runsAux], hsi, ?_⟩
      show i ≤ idx - 1
      omega
  | b :: rest, idx, st, hdrop, hidx, hinv, i, hi, hti, hcond => by
    have hb := drop_head_getD hdrop
    have hrest := drop_tail_eq hdrop
    have hlt := drop_cons_lt hdrop
    cases b with
    | true =>
      cases st with
      | none =>
        have hii : idx ≤ i := hcond
        have hres := runsAux_complete cand rest (idx + 1) (some (idx, 1)) hrest
          (by omega)
          ⟨by
            intro s len h
            obtain ⟨rfl, rfl⟩ : idx = s ∧ 1 = len := by simpa using h
            exact ⟨rfl, by omega, fun j hj1 hj2 => by
              have hj : j = idx := by omega
              rw [hj]; exact hb, hinv.2 rfl⟩,
            fun h => nomatch h⟩ i hi hti hii
        simpa [runsAux, hb] using hres
      | some p =>
        obtain ⟨s, len⟩ := p
        have hsi : s ≤ i := hcond
        obtain ⟨hsum, hpos, htrue, hleft⟩ := hinv.1 s len rfl
        have hres := runsAux_complete cand rest (idx + 1) (some (s, len + 1)) hrest
          (by omega)
          ⟨by
            intro s' len' h
            obtain ⟨rfl, rfl⟩ : s = s' ∧ len + 1 = len' := by simpa using h
            refine ⟨by omega, by omega, ?_, hleft⟩
            intro j hj1 hj2
            rcases Nat.lt_or_ge j idx with hj | hj
            · exact htrue j hj1 hj
            · have hj' : j = idx := by omega
              rw [hj']; exact hb,
            fun h => nomatch h⟩ i hi hti hsi
        simpa [runsAux, hb] using hres
    | false =>
      have hne : i ≠ idx := by
        intro h
        rw [h, hb] at hti
        cases hti
      cases st with
      | none =>
        have hii : idx ≤ i := hcond
        have hres := runsAux_complete cand rest (idx + 1) none hrest (by omega)
          ⟨(fun _ _ h => nomatch h), fun _ => Or.inr (by simpa using hb)⟩
          i hi hti (show idx + 1 ≤ i by omega)
        simpa [runsAux, hb] using hres
      | some p =>
        obtain ⟨s, len⟩ := p
        have hsi : s ≤ i := hcond
        obtain ⟨hsum, hpos, htrue, hleft⟩ := hinv.1 s len rfl
        rcases Nat.lt_or_ge i idx with hiidx | hiidx
        · refine ⟨⟨s, idx - 1, len⟩, by simp [runsAux, hb], hsi, ?_⟩
          show i ≤ idx - 1
          omega
        · have hres := runsAux_complete cand rest (idx + 1) none hrest (by omega)
            ⟨(fun _ _ h => nomatch h), fun _ => Or.inr (by simpa using hb)⟩
            i hi hti (show idx + 1 ≤ i by omega)
          obtain ⟨r, hr, hri⟩ := hres
          exact ⟨r, by simp [runsAux, hb, hr], hri⟩

theorem computeRuns_sound (cand : List Bool) :
    ∀ r ∈ computeRuns cand,
      IsMaxRun cand r.start r.stop ∧ r.length = r.stop - r.start + 1 :=
  runsAux_sound cand cand 0 none rfl (Nat.zero_le _)
    ⟨(fun _ _ h => nomatch h), fun _ => Or.inl rfl⟩

theorem computeRuns_complete (cand : List Bool) (i : ℕ) (hi : i < cand.length)
    (hti : cand.getD i false = true) :
    ∃ r ∈ computeRuns cand, r.start ≤ i ∧ i ≤ r.stop :=
  runsAux_complete cand cand 0 none rfl (Nat.zero_le _)
    ⟨(fun _ _ h => nomatch h), fun _ => Or.inl rfl⟩ i hi hti (Nat.zero_le i)

theorem isMaxRun_unique {cand : List Bool} {s₁ e₁ s₂ e₂ i : ℕ}
    (h₁ : IsMaxRun cand s₁ e₁) (h₂ : IsMaxRun cand s₂ e₂)
    (hi₁ : s₁ ≤ i) (hie₁ : i ≤ e₁) (hi₂ : s₂ ≤ i) (hie₂ : i ≤ e₂) :
    s₁ = s₂ ∧ e₁ = e₂ := by
  obtain ⟨hse₁, he₁, ht₁, hl₁, hr₁⟩ := h₁
  obtain ⟨hse₂, he₂, ht₂, hl₂, hr₂⟩ := h₂
  have hs : s₁ = s₂ := by
    rcases Nat.lt_trichotomy s₁ s₂ with h | h | h
    · rcases hl₂ with h0 | hfalse
      · omega
      · have := ht₁ (s₂ - 1) (by omega) (by omega)
        rw [hfalse] at this
        cases this
    · exact h
    · rcases hl₁ with h0 | hfalse
      · omega
      · have := ht₂ (s₁ - 1) (by omega) (by omega)
        rw [hfalse] at this
        cases this
  have he : e₁ = e₂ := by
    rcases Nat.lt_trichotomy e₁ e₂ with h | h | h
    · rcases hr₁ with h0 | hfalse
      · omega
      · have := ht₂ (e₁ + 1) (by omega) (by omega)
        rw [hfalse] at this
        cases this
    · exact h
    · rcases hr₂ with h0 | hfalse
      · omega
      · have := ht₁ (e₂ + 1) (by omega) (by omega)
        rw [hfalse] at this
        cases this
  exact ⟨hs, he⟩

theorem applyRun_length (minRun : ℕ) (mask : List Bool) (r : Run) :
    (applyRun minRun mask r).length = mask.length := by
  unfold applyRun
  split <;> simp

theorem foldl_applyRun_length (minRun : ℕ) (rs : List Run) :
    ∀ mask : List Bool, (rs.foldl (applyRun minRun) mask).length = mask.length := by
  induction rs with
  | nil => intro mask; rfl
  | cons r rs ih =>
    intro mask
    rw [List.foldl_cons, ih, applyRun_length]

theorem getD_applyRun (minRun : ℕ) (mask : List Bool) (r : Run) (i : ℕ) :
    ((applyRun minRun mask r).getD i false = true ↔
      (mask.getD i false = true ∨
        (minRun ≤ r.length ∧ r.start ≤ i ∧ i ≤ r.stop ∧ i < mask.length))) := by
  unfold applyRun
  split
  · rename_i hmin
    rcases Nat.lt_or_ge i mask.length with hi | hi
    · have hlen : i < (mask.enum.map (fun p =>
          if r.start ≤ p.1 ∧ p.1 ≤ r.stop then true else p.2)).length := by
        simpa using hi
      rw [List.getD_eq_getElem _ _ hlen, List.getElem_map, List.getElem_enum,
        List.getD_eq_getElem _ _ hi]
      by_cases hir : r.start ≤ i ∧ i ≤ r.stop
      · simp [hir, hmin, hi]
      · rw [if_neg hir]
        constructor
        · exact Or.inl
        · rintro (h | ⟨-, h1, h2, -⟩)
          · exact h
          · exact absurd ⟨h1, h2⟩ hir
    · rw [List.getD_eq_default _ _ (by simpa using hi),
        List.getD_eq_default _ _ hi]
      constructor
      · intro h; cases h
      · rintro (h | ⟨-, -, -, h⟩)
        · cases h
        · omega
  · rename_i hmin
    constructor
    · exact Or.inl
    · rintro (h | ⟨h1, -⟩)
      · exact h
      · exact absurd h1 hmin

theorem getD_foldl_applyRun (minRun : ℕ) (rs : List Run) :
    ∀ (mask : List Bool) (i : ℕ),
      ((rs.foldl (applyRun minRun) mask).getD i false = true ↔
        (mask.getD i false = true ∨
          ∃ r ∈ rs, minRun ≤ r.length ∧ r.start ≤ i ∧ i ≤ r.stop ∧
            i < mask.length)) := by
  induction rs with
  | nil => intro mask i; simp
  | cons r rs ih =>
    intro mask i
    rw [List.foldl_cons, ih, getD_applyRun, applyRun_length]
    constructor
    · rintro ((h | h) | ⟨r', hr', h⟩)
      · exact Or.inl h
      · exact Or.inr ⟨r, List.mem_cons_self r rs, h⟩
      · exact Or.inr ⟨r', List.mem_cons_of_mem r hr', h⟩
    · rintro (h | ⟨r', hr', h⟩)
      · exact Or.inl (Or.inl h)
      · rcases List.mem_cons.mp hr' with rfl | hr'
        · exact Or.inl (Or.inr h)
        · exact Or.inr ⟨r', hr', h⟩

/-! Claim C2: flatline candidates and run flagging -/

/-- Claim C2: A bucket is a flatline candidate iff both its `max` and `min`
aggregates are present and their spread is at most `flatline_eps` (an absent
spread is a non-candidate); and a bucket is flatline-flagged iff it belongs
to a maximal contiguous run of candidates whose length is at least
`flatline_min_run` — so every bucket of a qualifying run is flagged, and no
bucket of a shorter run is. -/
theorem C2_flatline_detection (maxs mins : List (Option ℚ)) (eps : ℚ)
    (min_run i : ℕ) :
    ((spreadCandidates maxs mins eps).getD i false = true ↔
      ∃ a b, maxs.getD i none = some a ∧ mins.getD i none = some b ∧
        a - b ≤ eps) ∧
    ((flatline_mask (spreadCandidates maxs mins eps) min_run).getD i false = true ↔
      ∃ s e, s ≤ i ∧ i ≤ e ∧ IsMaxRun (spreadCandidates maxs mins eps) s e ∧
        min_run ≤ e - s + 1) := by
  constructor
  · unfold spreadCandidates
    rcases Nat.lt_or_ge i (List.zipWith (fun mx mn =>
        match mx, mn with
        | some a, some b => decide (a - b ≤ eps)
        | _, _ => false) maxs mins).length with hi | hi
    · have hmx : i < maxs.length := by
        rw [List.length_zipWith] at hi
        omega
      have hmn : i < mins.length := by
        rw [List.length_zipWith] at hi
        omega
      rw [List.getD_eq_getElem _ _ hi, List.getElem_zipWith,
        List.getD_eq_getElem _ _ hmx, List.getD_eq_getElem _ _ hmn]
      cases maxs[i] with
      | none => simp
      | some a =>
        cases mins[i] with
        | none => simp
        | some b => simp
    · rw [List.getD_eq_default _ _ hi]
      rw [List.length_zipWith] at hi
      constructor
      · intro h; cases h
      · rintro ⟨a, b, ha, hb, -⟩
        rcases Nat.lt_or_ge i maxs.length with h1 | h1
        · have h2 : mins.length ≤ i := by omega
          rw [List.getD_eq_default _ _ h2] at hb
          cases hb
        · rw [List.getD_eq_default _ _ h1] at ha
          cases ha
  · unfold flatline_mask
    rw [getD_foldl_applyRun]
    have hrep : (List.replicate (spreadCandidates maxs mins eps).length
        false).getD i false = false := by
      rcases Nat.lt_or_ge i (spreadCandidates maxs mins eps).length with hi | hi
      · rw [List.getD_eq_getElem _ _ (by simpa using hi)]
        simp
      · rw [List.getD_eq_default _ _ (by simpa using hi)]
    rw [hrep]
    simp only [List.length_replicate, Bool.false_eq_true, false_or]
    constructor
    · rintro ⟨r, hr, hmin, h1, h2, h3⟩
      obtain ⟨hmax, hlen⟩ := computeRuns_sound _ r hr
      exact ⟨r.start, r.stop, h1, h2, hmax, by omega⟩
    · rintro ⟨s, e, hs, he, hmax, hlen⟩
      have hti : (spreadCandidates maxs mins eps).getD i false = true :=
        hmax.2.2.1 i hs he
      have hi : i < (spreadCandidates maxs mins eps).length := by
        have := hmax.2.1
        omega
      obtain ⟨r, hr, hri1, hri2⟩ := computeRuns_complete _ i hi hti
      obtain ⟨hmax', hlen'⟩ := computeRuns_sound _ r hr
      obtain ⟨h1, h2⟩ := isMaxRun_unique hmax' hmax hri1 hri2 hs he
      exact ⟨r, hr, by omega, hri1, hri2, hi⟩

/-! The signal loop: `mapM` over `Except` -/

theorem except_map_error {α β : Type} (g : α → β) (x : Except String α)
    (msg : String) (h : Except.map g x = .error msg) : x = .error msg := by
  cases x with
  | error e => simpa [Except.map] using h
  | ok v => simp [Except.map] at h

theorem mapM_pair_elts {α : Type} (F : String → Except String α) :
    ∀ (l : List String) (rs : List (String × α)),
      l.mapM (fun s => (F s).map (fun v => (s, v))) = .ok rs →
      ∀ p ∈ rs, F p.1 = .ok p.2
  | [], rs, h, p, hp => by
    rw [List.mapM_nil] at h
    obtain rfl : ([] : List (String × α)) = rs := by
      simpa [pure, Except.pure] using h
    cases hp
  | a :: l, rs, h, p, hp => by
    rw [List.mapM_cons] at h
    cases hFa : F a with
    | error e =>
      rw [show (F a).map (fun v => (a, v)) = .error e from by rw [hFa]; rfl] at h
      simp [bind, Except.bind] at h
    | ok v =>
      rw [show (F a).map (fun v => (a, v)) = .ok (a, v) from by rw [hFa]; rfl] at h
      simp only [bind, Except.bind] at h
      cases hrec : l.mapM (fun s => (F s).map (fun v => (s, v))) with
      | error e =>
        rw [hrec] at h
        cases h
      | ok xs =>
        rw [hrec] at h
        obtain rfl : (a, v) :: xs = rs := by
          simpa [pure, Except.pure] using h
        rcases List.mem_cons.mp hp with rfl | hp'
        · exact hFa
        · exact mapM_pair_elts F l xs hrec p hp'

theorem mapM_pair_find {α : Type} (F : String → Except String α) :
    ∀ (l : List String) (rs : List (String × α)),
      l.mapM (fun s => (F s).map (fun v => (s, v))) = .ok rs →
      ∀ s ∈ l, ∃ v, F s = .ok v ∧
        rs.find? (fun p => p.1 = s) = some (s, v)
  | [], rs, h, s, hs => by cases hs
  | a :: l, rs, h, s, hs => by
    rw [List.mapM_cons] at h
    cases hFa : F a with
    | error e =>
      rw [show (F a).map (fun v => (a, v)) = .error e from by rw [hFa]; rfl] at h
      simp [bind, Except.bind] at h
    | ok v =>
      rw [show (F a).map (fun v => (a, v)) = .ok (a, v) from by rw [hFa]; rfl] at h
      simp only [bind, Except.bind] at h
      cases hrec : l.mapM (fun s => (F s).map (fun v => (s, v))) with
      | error e =>
        rw [hrec] at h
        cases h
      | ok xs =>
        rw [hrec] at h
        obtain rfl : (a, v) :: xs = rs := by
          simpa [pure, Except.pure] using h
        by_cases has : a = s
        · subst has
          exact ⟨v, hFa, by simp [List.find?]⟩
        · have hs' : s ∈ l := by
            rcases List.mem_cons.mp hs with rfl | hs'
            · exact absurd rfl has
            · exact hs'
          obtain ⟨w, hw, hfind⟩ := mapM_pair_find F l xs hrec s hs'
          exact ⟨w, hw, by simp [List.find?, has, hfind]⟩

theorem mapM_error_first {α : Type} (g : String → Except String α) :
    ∀ l : List String, (∃ s ∈ l, ∃ m, g s = .error m) →
      ∃ msg, l.mapM g = .error msg ∧ ∃ s ∈ l, g s = .error msg
  | [], h => by
    obtain ⟨s, hs, -⟩ := h
    cases hs
  | a :: l, h => by
    cases hga : g a with
    | error m =>
      refine ⟨m, ?_, a, List.mem_cons_self a l, hga⟩
      rw [List.mapM_cons]
      rw [show g a = .error m from hga]
      rfl
    | ok v =>
      have hl : ∃ s ∈ l, ∃ m, g s = .error m := by
        obtain ⟨s, hs, m, hm⟩ := h
        rcases List.mem_cons.mp hs with rfl | hs'
        · rw [hga] at hm
          cases hm
        · exact ⟨s, hs', m, hm⟩
      obtain ⟨msg, hmapM, s', hs', hgs'⟩ := mapM_error_first g l hl
      refine ⟨msg, ?_, s', List.mem_cons_of_mem a hs', hgs'⟩
      rw [List.mapM_cons, hga]
      simp only [bind, Except.bind]
      rw [hmapM]

/-! `computeSignalStats`: success and failure shapes -/

theorem computeSignalStats_ok_spec (o : Overview) (p : Pass1Config) (s : String)
    (v : PerSignalStats × List Bool)
    (h : computeSignalStats o p s = .ok v) :
    v.1.flagged_bucket_count = v.2.count true ∧
    v.1.flagged_buckets = (o.buckets.zip v.2).filterMap
      (fun bf => if bf.2 then some bf.1 else none) ∧
    v.2 = zip3Or (missingFlagMask (o.getCol (s ++ "_mean")) p.missing_rate)
      (flatline_mask (spreadCandidates (o.getCol (s ++ "_max"))
        (o.getCol (s ++ "_min")) p.flatline_eps) p.flatline_min_run)
      (((_mad_z (diffFill (o.getCol (s ++ "_mean")))).map (fun z => |z|)).map
        (fun z => decide (p.spike_mad_z ≤ z))) ∧
    (s ++ "_mean") ∈ o.columns ∧ (s ++ "_min") ∈ o.columns ∧
    (s ++ "_max") ∈ o.columns := by
  simp only [computeSignalStats] at h
  split at h
  · cases h
  · split at h
    · cases h
    · obtain rfl : _ = v := by injection h
      rename_i hmean hminmax
      rw [not_not] at hmean
      push_neg at hminmax
      exact ⟨rfl, rfl, rfl, hmean, hminmax.1, hminmax.2⟩

theorem computeSignalStats_error_names (o : Overview) (p : Pass1Config)
    (s msg : String) (h : computeSignalStats o p s = .error msg) :
    ∃ c ∈ [s ++ "_mean", s ++ "_min", s ++ "_max"], c ∉ o.columns ∧
      ∃ pre post, msg = pre ++ c ++ post := by
  simp only [computeSignalStats] at h
  split at h
  · rename_i hmean
    obtain rfl : "Missing " ++ (s ++ "_mean") ++ " in overview for " ++ s = msg := by
      injection h
    exact ⟨s ++ "_mean", by simp, hmean, "Missing ", " in overview for " ++ s,
      by simp only [String.append_assoc]⟩
  · split at h
    · rename_i hmean hminmax
      obtain rfl : "Missing " ++ (s ++ "_min") ++ "/" ++ (s ++ "_max")
          ++ " in overview for " ++ s = msg := by
        injection h
      rcases hminmax with hmin | hmax
      · exact ⟨s ++ "_min", by simp, hmin, "Missing ",
          "/" ++ (s ++ "_max") ++ " in overview for " ++ s,
          by simp only [String.append_assoc]⟩
      · exact ⟨s ++ "_max", by simp, hmax, "Missing " ++ (s ++ "_min") ++ "/",
          " in overview for " ++ s, by simp only [String.append_assoc]⟩
    · cases h

theorem computeSignalStats_error_of_missing (o : Overview) (p : Pass1Config)
    (s c : String) (hc : c ∈ [s ++ "_mean", s ++ "_min", s ++ "_max"])
    (hmiss : c ∉ o.columns) :
    ∃ msg, computeSignalStats o p s = .error msg := by
  simp only [computeSignalStats]
  split
  · exact ⟨_, rfl⟩
  · split
    · exact ⟨_, rfl⟩
    · rename_i hmean hminmax
      exfalso
      rw [not_not] at hmean
      push_neg at hminmax
      rcases (by simpa using hc : c = s ++ "_mean" ∨ c = s ++ "_min"
          ∨ c = s ++ "_max") with rfl | rfl | rfl
      · exact hmiss hmean
      · exact hmiss hminmax.1
      · exact hmiss hminmax.2

theorem sortByBucket_columns (o : Overview) :
    (o.sortByBucket).columns = o.columns := by
  simp [Overview.sortByBucket, Overview.columns]

theorem sortByBucket_timeColName (o : Overview) :
    (o.sortByBucket).timeColName = o.timeColName := rfl

/-! Claim C8: missing aggregate columns abort the computation -/

/-- Claim C8: If any configured (or inferred) signal lacks one of its required
aggregate columns, the whole Pass-1 computation returns an error — no
partial result — and the error message names a missing required column of a
configured signal. -/
theorem C8_missing_column_aborts (o : Overview) (mid : String)
    (cfg : OverviewCfg) (p : Pass1Config) (key : String) (ch : Bool) (now : ℚ)
    (htc : cfg.time_col = o.timeColName)
    (s : String) (hs : s ∈ effectiveSignals o cfg)
    (c : String) (hc : c ∈ [s ++ "_mean", s ++ "_min", s ++ "_max"])
    (hmiss : c ∉ o.columns) :
    ∃ msg, build_pass1_from_overview o mid cfg p key ch now = .error msg ∧
      ∃ s' ∈ effectiveSignals o cfg,
        ∃ c' ∈ [s' ++ "_mean", s' ++ "_min", s' ++ "_max"],
          c' ∉ o.columns ∧ ∃ pre post, msg = pre ++ c' ++ post := by
  have hcols := sortByBucket_columns o
  have hmiss' : c ∉ (o.sortByBucket).columns := by
    rw [hcols]; exact hmiss
  obtain ⟨m0, hm0⟩ :=
    computeSignalStats_error_of_missing (o.sortByBucket) p s c hc hmiss'
  have hfail : ∃ s₀ ∈ effectiveSignals o cfg, ∃ m,
      (computeSignalStats (o.sortByBucket) p s₀).map
        (fun r => (s₀, r)) = Except.error m :=
    ⟨s, hs, m0, by rw [hm0]; rfl⟩
  obtain ⟨msg, hmapM, s', hs', hgs'⟩ := mapM_error_first _ _ hfail
  have hcss' : computeSignalStats (o.sortByBucket) p s' = .error msg :=
    except_map_error _ _ _ hgs'
  obtain ⟨c', hc', hmiss_c', pre, post, hmsg⟩ :=
    computeSignalStats_error_names _ p s' msg hcss'
  refine ⟨msg, ?_, s', hs', c', hc', by rw [← hcols]; exact hmiss_c',
    pre, post, hmsg⟩
  simp only [build_pass1_from_overview]
  rw [sortByBucket_timeColName, if_neg (not_not_intro htc)]
  rw [hmapM]

/-- Witness for C8: the overview missing `a_min`/`a_max` aborts with an
error (no partial result is produced). -/
theorem C8_missing_column_aborts_witness :
    (build_pass1_from_overview exOverviewMissing "m_x"
        { signals := some ["a"] } exP "k" false 0).toOption = none := by
  obtain ⟨msg, hmsg, -⟩ := C8_missing_column_aborts exOverviewMissing "m_x"
    { signals := some ["a"] } exP "k" false 0 rfl "a"
    (by with_unfolding_all decide) ("a" ++ "_min")
    (by with_unfolding_all decide) (by with_unfolding_all decide)
  rw [hmsg]
  rfl

/-! Length bookkeeping for the per-signal masks -/

theorem diffFillGo_length (prev : Option ℚ) (l : List (Option ℚ)) :
    (diffFillGo prev l).length = l.length := by
  induction l generalizing prev with
  | nil => rfl
  | cons x rest ih => simp [diffFillGo, ih]

theorem diffFill_length (l : List (Option ℚ)) :
    (diffFill l).length = l.length := by
  cases l with
  | nil => rfl
  | cons x rest => simp [diffFill, diffFillGo_length]

theorem mad_z_length (l : List ℚ) : (_mad_z l).length = l.length := by
  unfold _mad_z
  split
  · simp [*]
  · split <;> simp

theorem zip3Or_length :
    ∀ (a b c : List Bool),
      (zip3Or a b c).length = min a.length (min b.length c.length)
  | [], _, _ => by simp [zip3Or]
  | _ :: _, [], _ => by simp [zip3Or]
  | _ :: _, _ :: _, [] => by simp [zip3Or]
  | x :: a, y :: b, z :: c => by
    simp [zip3Or, zip3Or_length a b c]
    omega

theorem flatline_mask_length (spread : List Bool) (min_run : ℕ) :
    (flatline_mask spread min_run).length = spread.length := by
  unfold flatline_mask
  rw [foldl_applyRun_length, List.length_replicate]

theorem missingFlagMask_length (means : List (Option ℚ)) (t : ℚ) :
    (missingFlagMask means t).length = means.length := by
  simp [missingFlagMask]

theorem spreadCandidates_length (maxs mins : List (Option ℚ)) (eps : ℚ) :
    (spreadCandidates maxs mins eps).length = min maxs.length mins.length := by
  simp [spreadCandidates]

theorem getCol_length_of_colsLen (o : Overview) (h : Overview.ColsLen o)
    (name : String) (hmem : name ∈ o.columns) :
    (o.getCol name).length = o.buckets.length := by
  unfold Overview.getCol
  by_cases h1 : name = o.timeColName
  · rw [if_pos h1]
    simpa using h.1
  · rw [if_neg h1]
    by_cases h2 : name = "bucket"
    · rw [if_pos h2, List.length_map]
    · rw [if_neg h2]
      cases hfind : o.sigCols.find? (fun c => c.1 = name) with
      | some c =>
        exact h.2 c (List.mem_of_find?_eq_some hfind)
      | none =>
        exfalso
        have hname : name ∈ o.sigCols.map (fun c => c.1) := by
          simpa [Overview.columns, h1, h2] using hmem
        obtain ⟨c, hc, hc1⟩ := List.mem_map.mp hname
        have : (o.sigCols.find? (fun c => c.1 = name)).isSome :=
          List.find?_isSome.mpr ⟨c, hc, by simp [hc1]⟩
        rw [hfind] at this
        cases this

theorem sortByBucket_colsLen (o : Overview) : (o.sortByBucket).ColsLen := by
  constructor
  · simp [Overview.sortByBucket]
  · intro c hc
    simp only [Overview.sortByBucket, List.mem_map] at hc
    obtain ⟨c', -, rfl⟩ := hc
    simp [Overview.sortByBucket]

theorem computeSignalStats_flags_length (o : Overview) (h : Overview.ColsLen o)
    (p : Pass1Config) (s : String) (v : PerSignalStats × List Bool)
    (hok : computeSignalStats o p s = .ok v) :
    v.2.length = o.buckets.length := by
  obtain ⟨-, -, hflag, hmean, hmin, hmax⟩ := computeSignalStats_ok_spec o p s v hok
  rw [hflag, zip3Or_length, missingFlagMask_length, flatline_mask_length,
    spreadCandidates_length, List.length_map, List.length_map, mad_z_length,
    diffFill_length, getCol_length_of_colsLen o h _ hmean,
    getCol_length_of_colsLen o h _ hmin, getCol_length_of_colsLen o h _ hmax]
  omega

theorem filterMap_zip_length {α : Type} :
    ∀ (b : List α) (f : List Bool), f.length ≤ b.length →
      ((b.zip f).filterMap (fun bf => if bf.2 then some bf.1 else none)).length
        = f.count true
  | _, [], _ => by simp
  | [], f :: fs, h => by simp at h
  | b :: bs, f :: fs, h => by
    rw [List.zip_cons_cons, List.filterMap_cons]
    have ih := filterMap_zip_length bs fs (by simpa using h)
    cases f with
    | true => simp [ih, List.count_cons]
    | false => simp [ih, List.count_cons]

/-! Claim C9: flagged counts match flagged bucket lists -/

/-- Claim C9: In every Pass-1 result, each signal's reported
`flagged_bucket_count` equals the length of its reported `flagged_buckets`
list: both derive from the same per-bucket flag vector. -/
theorem C9_count_consistency (o : Overview) (mid : String) (cfg : OverviewCfg)
    (p : Pass1Config) (key : String) (ch : Bool) (now : ℚ)
    (r : AutopsyResultPass1)
    (hok : build_pass1_from_overview o mid cfg p key ch now = .ok r) :
    ∀ q ∈ r.per_signal,
      q.2.flagged_bucket_count = q.2.flagged_buckets.length := by
  simp only [build_pass1_from_overview] at hok
  split at hok
  · cases hok
  · split at hok
    · cases hok
    · rename_i results hmapM
      obtain rfl : _ = r := by injection hok
      intro q hq
      rcases List.mem_map.mp hq with ⟨res, hres, rfl⟩
      have hF := mapM_pair_elts _ _ _ hmapM res hres
      obtain ⟨hcount, hbuckets, -, -, -, -⟩ :=
        computeSignalStats_ok_spec _ p res.1 res.2 hF
      have hlen := computeSignalStats_flags_length (o.sortByBucket)
        (sortByBucket_colsLen o) p res.1 res.2 hF
      show res.2.1.flagged_bucket_count = res.2.1.flagged_buckets.length
      rw [hcount, hbuckets, filterMap_zip_length _ _ (le_of_eq hlen)]

/-- Witness for C9 on the two-signal example overview. -/
theorem C9_count_consistency_witness :
    ∃ r, build_pass1_from_overview exOverview "m_x" exCfg exP "k" false 100
        = .ok r ∧ ∀ q ∈ r.per_signal,
      q.2.flagged_bucket_count = q.2.flagged_buckets.length := by
  have hok' : (build_pass1_from_overview exOverview "m_x" exCfg exP "k" false
      100).toOption.isSome = true := by
    with_unfolding_all rfl
  match h : build_pass1_from_overview exOverview "m_x" exCfg exP "k" false 100 with
  | .ok r =>
    exact ⟨r, rfl, C9_count_consistency exOverview "m_x" exCfg exP "k" false 100 r h⟩
  | .error e =>
    rw [h] at hok'
    exact Bool.noConfusion hok'

/-! Sorting by bucket fixes a strictly increasing bucket column -/

theorem range_map_getD {α : Type} (l : List α) (d : α) :
    (List.range l.length).map (fun i => l.getD i d) = l := by
  apply List.ext_getElem
  · simp
  · intro i h1 h2
    simp only [List.getElem_map, List.getElem_range]
    rw [List.getD_eq_getElem _ _ h2]

theorem sortByBucket_buckets_of_mono (o : Overview)
    (hmono : o.buckets.Pairwise (· < ·)) :
    (o.sortByBucket).buckets = o.buckets := by
  have hpairLen : ((List.range o.buckets.length).zip o.buckets).length
      = o.buckets.length := by simp
  have hpair : ((List.range o.buckets.length).zip o.buckets).Pairwise
      (fun a b => a.2 ≤ b.2) := by
    rw [List.pairwise_iff_getElem]
    intro i j hi hj hij
    rw [hpairLen] at hi hj
    simp only [List.getElem_zip]
    exact le_of_lt (List.pairwise_iff_getElem.mp hmono i j hi hj hij)
  show (((((List.range o.buckets.length).zip o.buckets).insertionSort
      (fun a b => a.2 ≤ b.2)).map (fun p => p.1)).map
      (fun i => o.buckets.getD i 0)) = o.buckets
  rw [List.Sorted.insertionSort_eq hpair]
  rw [show (fun p : ℕ × Int => p.1) = Prod.fst from rfl]
  rw [List.map_fst_zip _ _ (by simp), range_map_getD]

/-! Counting flagged buckets inside a window slice -/

theorem countP_filterMap_if :
    ∀ (zs : List (Int × Bool)) (q : Int → Bool),
      ((zs.filterMap (fun bf => if bf.2 then some bf.1 else none)).countP q)
        = zs.countP (fun bf => bf.2 && q bf.1)
  | [], _ => rfl
  | (b, f) :: zs, q => by
    rw [List.filterMap_cons]
    have ih := countP_filterMap_if zs q
    cases f with
    | true => simp [List.countP_cons, ih]
    | false => simp [List.countP_cons, ih]

theorem countP_snd_zip {α : Type} :
    ∀ (b : List α) (f : List Bool), f.length ≤ b.length →
      (b.zip f).countP (fun bf => bf.2) = f.count true
  | _, [], _ => by simp
  | [], _ :: _, h => by simp at h
  | b :: bs, f :: fs, h => by
    rw [List.zip_cons_cons]
    have ih := countP_snd_zip bs fs (by simpa using h)
    cases f <;> simp [List.countP_cons, List.count_cons, ih]

theorem pairwise_lt_getD_le (l : List Int) (hmono : l.Pairwise (· < ·))
    {i j : ℕ} (hij : i ≤ j) (hj : j < l.length) :
    l.getD i 0 ≤ l.getD j 0 := by
  rw [List.getD_eq_getElem _ _ (lt_of_le_of_lt hij hj),
    List.getD_eq_getElem _ _ hj]
  rcases Nat.eq_or_lt_of_le hij with rfl | hlt
  · exact le_refl _
  · exact le_of_lt (List.pairwise_iff_getElem.mp hmono i j _ hj hlt)

theorem pairwise_lt_getD_lt (l : List Int) (hmono : l.Pairwise (· < ·))
    {i j : ℕ} (hij : i < j) (hj : j < l.length) :
    l.getD i 0 < l.getD j 0 := by
  rw [List.getD_eq_getElem _ _ (lt_trans hij hj), List.getD_eq_getElem _ _ hj]
  exact List.pairwise_iff_getElem.mp hmono i j _ hj hij

theorem count_slice_eq_filter_range (buckets : List Int) (flags : List Bool)
    (hmono : buckets.Pairwise (· < ·)) (hlen : flags.length = buckets.length)
    (si ei : ℕ) (hsi : si ≤ ei) (hei : ei < buckets.length) :
    ((buckets.zip flags).filterMap
        (fun bf => if bf.2 then some bf.1 else none)).countP
      (fun b => decide (buckets.getD si 0 ≤ b ∧ b ≤ buckets.getD ei 0))
    = ((flags.drop si).take (ei + 1 - si)).count true := by
  rw [countP_filterMap_if]
  have hzslen : (buckets.zip flags).length = buckets.length := by
    rw [List.length_zip, hlen]
    omega
  have hdecomp : buckets.zip flags
      = (buckets.zip flags).take si
        ++ (((buckets.zip flags).drop si).take (ei + 1 - si)
          ++ ((buckets.zip flags).drop si).drop (ei + 1 - si)) := by
    rw [List.take_append_drop, List.take_append_drop]
  have hfront : ((buckets.zip flags).take si).countP
      (fun bf => bf.2 && decide (buckets.getD si 0 ≤ bf.1 ∧
        bf.1 ≤ buckets.getD ei 0)) = 0 := by
    rw [List.countP_eq_zero]
    intro bf hbf
    obtain ⟨j, hj, hj2⟩ := List.mem_iff_getElem.mp hbf
    have hjsi : j < si := lt_of_lt_of_le hj (by simp)
    have hjz : j < (buckets.zip flags).length :=
      lt_of_lt_of_le hj (by simp [List.length_take])
    rw [List.getElem_take, List.getElem_zip] at hj2
    have hblt : buckets.getD j 0 < buckets.getD si 0 :=
      pairwise_lt_getD_lt buckets hmono hjsi (by omega)
    have hbj : bf.1 = buckets.getD j 0 := by
      rw [← hj2, List.getD_eq_getElem _ _ (by omega : j < buckets.length)]
    simp only [Bool.and_eq_true, decide_eq_true_eq, not_and]
    rintro -
    rw [hbj]
    omega
  have hback : (((buckets.zip flags).drop si).drop (ei + 1 - si)).countP
      (fun bf => bf.2 && decide (buckets.getD si 0 ≤ bf.1 ∧
        bf.1 ≤ buckets.getD ei 0)) = 0 := by
    rw [List.drop_drop, List.countP_eq_zero]
    intro bf hbf
    obtain ⟨j, hj, hj2⟩ := List.mem_iff_getElem.mp hbf
    rw [List.getElem_drop] at hj2
    have hjz : si + (ei + 1 - si) + j < (buckets.zip flags).length := by
      rw [List.length_drop] at hj
      omega
    rw [List.getElem_zip] at hj2
    have hgt : buckets.getD ei 0 < buckets.getD (si + (ei + 1 - si) + j) 0 :=
      pairwise_lt_getD_lt buckets hmono (by omega) (by omega)
    have hbj : bf.1 = buckets.getD (si + (ei + 1 - si) + j) 0 := by
      rw [← hj2, List.getD_eq_getElem _ _ (by omega : si + (ei + 1 - si) + j
        < buckets.length)]
    simp only [Bool.and_eq_true, decide_eq_true_eq, not_and]
    rintro -
    rw [hbj]
    omega
  have hmid : (((buckets.zip flags).drop si).take (ei + 1 - si)).countP
      (fun bf => bf.2 && decide (buckets.getD si 0 ≤ bf.1 ∧
        bf.1 ≤ buckets.getD ei 0))
      = (((buckets.zip flags).drop si).take (ei + 1 - si)).countP
        (fun bf => bf.2) := by
    apply List.countP_congr
    intro bf hbf
    obtain ⟨j, hj, hj2⟩ := List.mem_iff_getElem.mp hbf
    have hjk : j < ei + 1 - si := lt_of_lt_of_le hj (by simp)
    have hjd : j < ((buckets.zip flags).drop si).length := by
      rw [List.length_take] at hj
      omega
    rw [List.getElem_take, List.getElem_drop] at hj2
    have hjz : si + j < (buckets.zip flags).length := by
      rw [List.length_drop] at hjd
      omega
    rw [List.getElem_zip] at hj2
    have hbj : bf.1 = buckets.getD (si + j) 0 := by
      rw [← hj2, List.getD_eq_getElem _ _ (by omega : si + j < buckets.length)]
    have h1 : buckets.getD si 0 ≤ bf.1 := by
      rw [hbj]
      exact pairwise_lt_getD_le buckets hmono (by omega) (by omega)
    have h2 : bf.1 ≤ buckets.getD ei 0 := by
      rw [hbj]
      exact pairwise_lt_getD_le buckets hmono (by omega) hei
    simp only [Bool.and_eq_true, decide_eq_true_eq]
    exact ⟨fun h => h.1, fun h => ⟨h, h1, h2⟩⟩
  have hzipmid : (((buckets.zip flags).drop si).take (ei + 1 - si)).countP
      (fun bf => bf.2)
      = ((flags.drop si).take (ei + 1 - si)).count true := by
    rw [List.zip_eq_zipWith, List.drop_zipWith, List.take_zipWith,
      ← List.zip_eq_zipWith]
    apply countP_snd_zip
    simp [hlen]
  conv_lhs => rw [hdecomp]
  rw [List.countP_append, List.countP_append, hfront, hback, hmid, hzipmid]
  omega

/-! The shape of one scored window -/

theorem alookup_map_result {β γ : Type} (results : List (String × β))
    (G : β → γ) (s : String) (v : β)
    (hfind : results.find? (fun p => p.1 = s) = some (s, v)) :
    alookup (results.map (fun r => (r.1, G r.2))) s = some (G v) := by
  unfold alookup
  rw [List.find?_map]
  rw [show ((fun p : String × γ => decide (p.1 = s)) ∘
      (fun r : String × β => (r.1, G r.2)))
    = (fun p : String × β => decide (p.1 = s)) from rfl]
  rw [hfind]
  rfl

theorem mkWindow_spec (o' : Overview) (signals : List String)
    (per_signal : List (String × PerSignalStats))
    (fbs : List (String × List Bool)) (run : Run) :
    (mkWindow o' signals per_signal fbs run).start_bucket
        = o'.buckets.getD run.start 0 ∧
    (mkWindow o' signals per_signal fbs run).end_bucket
        = o'.buckets.getD run.stop 0 ∧
    (mkWindow o' signals per_signal fbs run).score
      = (((mkWindow o' signals per_signal fbs run).signals.map
          (fun e => e.score)).sum) ∧
    (((mkWindow o' signals per_signal fbs run).signals.map
        (fun e => e.signal)).Perm signals) ∧
    ∀ e ∈ (mkWindow o' signals per_signal fbs run).signals, ∃ s ∈ signals,
      e.signal = s ∧
      e.score = (((((alookup fbs s).getD []).drop run.start).take
          (run.stop + 1 - run.start)).count true : ℚ)
        + ((alookup per_signal s).getD default).spike_mad_z_max := by
  refine ⟨rfl, rfl, ?_, ?_, ?_⟩
  · show _ = ((List.insertionSort sigRel _).map (fun e => e.score)).sum
    exact (((List.perm_insertionSort sigRel _).map (fun e => e.score)).sum_eq).symm
  · show ((List.insertionSort sigRel _).map (fun e => e.signal)).Perm signals
    refine ((List.perm_insertionSort sigRel _).map (fun e => e.signal)).trans ?_
    rw [List.map_map]
    simp [Function.comp_def]
  · intro e he
    obtain ⟨s, hsig, rfl⟩ :=
      List.mem_map.mp ((List.mem_insertionSort sigRel).mp he)
    exact ⟨s, hsig, rfl, rfl⟩

theorem zipOr_length (u f : List Bool) :
    (zipOr u f).length = min u.length f.length := by
  simp [zipOr]

theorem foldl_zipOr_length :
    ∀ (fbs : List (String × List Bool)) (u : List Bool),
      (∀ x ∈ fbs, x.2.length = u.length) →
      (fbs.foldl (fun u f => zipOr u f.2) u).length = u.length
  | [], u, _ => rfl
  | x :: fbs, u, h => by
    rw [List.foldl_cons]
    have hx : (zipOr u x.2).length = u.length := by
      rw [zipOr_length, h x (List.mem_cons_self x fbs)]
      omega
    rw [foldl_zipOr_length fbs (zipOr u x.2) (fun y hy => by
      rw [hx]
      exact h y (List.mem_cons_of_mem x hy)), hx]

/-! Claim C1: window scores -/

/-- Claim C1: For every window of a Pass-1 result over a strictly increasing
bucket column, and for every configured signal: the signal's window-local
score equals the count of that signal's flagged buckets whose bucket index
lies within `[start_bucket, end_bucket]`, plus that signal's *global*
maximum absolute spike MAD z-score (not a window-local maximum); the
window's total score is the sum of these per-signal scores, whose entries
range over exactly the configured signals. -/
theorem C1_window_scoring (o : Overview) (mid : String) (cfg : OverviewCfg)
    (p : Pass1Config) (key : String) (ch : Bool) (now : ℚ)
    (r : AutopsyResultPass1)
    (hmono : o.buckets.Pairwise (· < ·))
    (hok : build_pass1_from_overview o mid cfg p key ch now = .ok r) :
    ∀ w ∈ r.windows,
      (∀ e ∈ w.signals, ∃ stats, alookup r.per_signal e.signal = some stats ∧
        e.score = ((stats.flagged_buckets.countP
            (fun b => decide (w.start_bucket ≤ b ∧ b ≤ w.end_bucket)) : ℕ) : ℚ)
          + stats.spike_mad_z_max) ∧
      w.score = (w.signals.map (fun e => e.score)).sum ∧
      (w.signals.map (fun e => e.signal)).Perm (effectiveSignals o cfg) := by
  simp only [build_pass1_from_overview] at hok
  split at hok
  · cases hok
  · split at hok
    · cases hok
    · rename_i results hmapM
      obtain rfl : _ = r := by injection hok
      intro w hw
      obtain ⟨run, hrun, rfl⟩ := List.mem_map.mp
        ((List.mem_insertionSort winRel).mp hw)
      obtain ⟨hsb, heb, hsum, hperm, hentries⟩ := mkWindow_spec (o.sortByBucket)
        (effectiveSignals o cfg) (results.map (fun r => (r.1, r.2.1)))
        (results.map (fun r => (r.1, r.2.2))) run
      have hob : (o.sortByBucket).buckets = o.buckets :=
        sortByBucket_buckets_of_mono o hmono
      have hflagslen : ∀ x ∈ results.map (fun r => (r.1, r.2.2)),
          (x.2 : List Bool).length
            = (List.replicate (o.sortByBucket).buckets.length false).length := by
        intro x hx
        obtain ⟨res, hres, rfl⟩ := List.mem_map.mp hx
        have hF := mapM_pair_elts _ _ _ hmapM res hres
        rw [List.length_replicate]
        exact computeSignalStats_flags_length _ (sortByBucket_colsLen o) _ _ _ hF
      have hunion : (List.foldl (fun u f => zipOr u f.2)
          (List.replicate (o.sortByBucket).buckets.length false)
          (results.map (fun r => (r.1, r.2.2)))).length
          = (o.sortByBucket).buckets.length := by
        rw [foldl_zipOr_length _ _ hflagslen, List.length_replicate]
      obtain ⟨hmaxrun, -⟩ := computeRuns_sound _ run hrun
      obtain ⟨hb1, hb2, -, -, -⟩ := hmaxrun
      rw [hunion] at hb2
      refine ⟨?_, hsum, hperm⟩
      intro e he
      obtain ⟨s, hsig, hesig, hescore⟩ := hentries e he
      obtain ⟨v, hFs, hfind⟩ := mapM_pair_find _ _ _ hmapM s hsig
      have hstats : alookup (results.map (fun r => (r.1, r.2.1))) s
          = some v.1 := alookup_map_result results (fun x => x.1) s v hfind
      have hflags : alookup (results.map (fun r => (r.1, r.2.2))) s
          = some v.2 := alookup_map_result results (fun x => x.2) s v hfind
      refine ⟨v.1, ?_, ?_⟩
      · rw [hesig]
        exact hstats
      · rw [hescore, hflags, hstats]
        simp only [Option.getD_some]
        rw [hsb, heb]
        obtain ⟨-, hbuckets, -, -, -, -⟩ :=
          computeSignalStats_ok_spec _ p s v hFs
        rw [hbuckets]
        rw [count_slice_eq_filter_range ((o.sortByBucket).buckets) v.2
          (hob ▸ hmono)
          (computeSignalStats_flags_length _ (sortByBucket_colsLen o) _ _ _ hFs)
          run.start run.stop hb1 hb2]

/-- Witness for C1 on the two-signal example overview (strictly increasing
buckets, one spike window). -/
theorem C1_window_scoring_witness :
    ∃ r, build_pass1_from_overview exOverview "m_x" exCfg exP "k" false 100
        = .ok r ∧
      ∀ w ∈ r.windows,
        (∀ e ∈ w.signals, ∃ stats, alookup r.per_signal e.signal = some stats ∧
          e.score = ((stats.flagged_buckets.countP
              (fun b => decide (w.start_bucket ≤ b ∧ b ≤ w.end_bucket)) : ℕ) : ℚ)
            + stats.spike_mad_z_max) ∧
        w.score = (w.signals.map (fun e => e.score)).sum ∧
        (w.signals.map (fun e => e.signal)).Perm
          (effectiveSignals exOverview exCfg) := by
  have hok' : (build_pass1_from_overview exOverview "m_x" exCfg exP "k" false
      100).toOption.isSome = true := by
    with_unfolding_all rfl
  match h : build_pass1_from_overview exOverview "m_x" exCfg exP "k" false 100 with
  | .ok r =>
    exact ⟨r, rfl, C1_window_scoring exOverview "m_x" exCfg exP "k" false 100 r
      (by decide) h⟩
  | .error e =>
    rw [h] at hok'
    exact Bool.noConfusion hok'

/-- Witness for C3: a zero-MAD series yields all-zero z-scores, and a
nonzero-MAD series yields the `0.6745 * (x − median) / MAD` formula. -/
theorem C3_mad_z_zero_guard_witness :
    _mad_z [2, 2, 2] = List.replicate 3 0 ∧
    (_mad_z [0, 1, 9]).getD 2 0
      = (6745 / 10000 : ℚ) * (([0, 1, 9] : List ℚ).getD 2 0
          - listMedian [0, 1, 9]) / listMad [0, 1, 9] ∧
    ((_mad_z (diffFill (List.replicate 3 (some (5 : ℚ))))).map
        (fun z => |z|)).map (fun z => decide ((1 : ℚ) ≤ z))
      = List.replicate 3 false :=
  ⟨(C3_mad_z_zero_guard [2, 2, 2]).1 (by with_unfolding_all rfl),
   (C3_mad_z_zero_guard [0, 1, 9]).2.1
     (by with_unfolding_all decide) 2 (by norm_num),
   (C3_mad_z_zero_guard []).2.2 3 5 1 (by norm_num)⟩

end Autopsy
